import Mathlib

/-!
# Ping360 sonar driver

A shallow embedding of `src/sensor/ping360.cpp`: the sector scan controller
(`requestNextProfile` and its `isInside` lambda), the message dispatcher
(`handleMessage`) and the automatic baud rate detection (`checkBaudrateProcess`,
`detectBaudrates`).

Conventions of the embedding.

* C++ `int` values are `Int`; `/` and `%` on them are the truncating `Int.tdiv`
  and `Int.tmod`.  In the sector scan controller, where the operands are member variables
  of any `int` value, the result of every `int` addition, negation and multiplication is
  reduced to 32 bits in two's complement by `wrap32`.  The parser counters, the list
  positions and the values derived from them in the baud rate detection are not reduced.
* Signals emitted and calls that leave the class (`writeMessage`, `deltaStep`,
  `setBaudRate`, timer starts and stops) are recorded, in order, as a list of `Event`.
* Function-local `static` variables are fields of `Statics`, passed explicitly.
* A read of `validBaudRates()` outside its bounds has no defined result in the source;
  the functions that perform such reads return `Option`, with `none` for that case.
* `double` samples are exact rationals.
-/

namespace Ping360

/-! ## Constants -/

/-- Firmware default gain at boot (`ping360.cpp`, line 33). -/
def _firmwareDefaultGainSetting : Nat := 0
/-- Firmware default transmit duration at boot (line 35). -/
def _firmwareDefaultTransmitDuration : Nat := 32
/-- Firmware default sample period at boot (line 36). -/
def _firmwareDefaultSamplePeriod : Nat := 80
/-- Firmware default transmit frequency at boot (line 37). -/
def _firmwareDefaultTransmitFrequency : Nat := 740
/-- Firmware default number of samples at boot (line 38). -/
def _firmwareDefaultNumberOfSamples : Nat := 1024
/-- Firmware maximum number of points (line 28). -/
def _firmwareMaxNumberOfPoints : Nat := 1200
/-- The transmit frequency the viewer operates with (line 41). -/
def _viewerDefaultTransmitFrequency : Nat := 750
/-- The number of samples the viewer operates with (line 42). -/
def _viewerDefaultNumberOfSamples : Nat := _firmwareMaxNumberOfPoints

/-- Modelled from the spec: the constant `_angularResolutionGrad` is declared in the class
header, which is not part of the sources at hand; the specification fixes the full circle at
400 grad units, and line 192 of `ping360.cpp` compares the sector size with the literal 400. -/
def _angularResolutionGrad : Int := 400

/-! ## Messages, events and state -/

/-- Identifiers the dispatcher tells apart.  Their numeric values belong to the protocol
library; the dispatcher only compares them, and the labels of a `switch` are distinct. -/
inductive MessageId
  | DEVICE_INFORMATION
  | NACK
  | DEVICE_DATA
  | TRANSDUCER
  | other (id : Nat)
  deriving DecidableEq, Repr

/-- A decoded message: its id and the payload fields read through the typed views
`ping360_device_data` (`angle`, `data`; `data_length` is the length of `data`) and
`common_nack` (`nacked_id`). -/
structure ping_message where
  message_id : MessageId
  angle : Nat
  data : List (Fin 256)
  nacked_id : MessageId
  deriving DecidableEq, Repr

/-- The reported number of raw samples of a profile message. -/
def ping_message.data_length (msg : ping_message) : Nat := msg.data.length

/-- Signals emitted and calls leaving the class, in the order they happen. -/
inductive Event
  | writeDeviceInformationRequest
  | baudrateConfigurationTimerStart
  | baudrateConfigurationTimerStop
  | timeoutProfileMessageStart
  | setBaudRate (baudRate : Int)
  | deltaStep (steps : Int)
  | messageFrequencyChanged
  | angleChanged
  | dataChanged
  | gainSettingChanged
  | transmitDurationChanged
  | samplePeriodChanged
  | transmitFrequencyChanged
  | numberOfPointsChanged
  | rangeChanged
  | parsedMsgsUpdate
  deriving DecidableEq, Repr

/-- The member variables of a `Ping360` instance that the embedded functions touch. -/
structure State where
  _angle : Int
  _sectorSize : Int
  _angular_speed : Int
  _reverse_direction : Bool
  _gain_setting : Nat
  _transmit_duration : Nat
  _sample_period : Nat
  _transmit_frequency : Nat
  _num_points : Nat
  _data : List ℚ
  _ping_number : Nat
  _configuring : Bool
  messageFrequencies : List (MessageId × Nat)
  deriving DecidableEq

/-- A `QMap<int, int>`: the most recent binding of a key is the first one in the list. -/
abbrev QMap := List (Int × Int)

/-- The value `m[key]`: the bound value, or the default constructed `0` for an absent key
(for which `operator[]` also inserts that `0`, leaving every later read unchanged). -/
def QMap.value (m : QMap) (key : Int) : Int :=
  match m.lookup key with
  | some v => v
  | none => 0

/-- The assignment `m[key] = v`. -/
def QMap.assign (m : QMap) (key v : Int) : QMap := (key, v) :: m

/-- The function-local `static` variables of `checkBaudrateProcess` (`count`) and of
`detectBaudrates` (`index`, `baudRateToError`, `lastParserErrorCount`,
`lastParserMsgsCount`).  They are shared by every instance of the class. -/
structure Statics where
  count : Int
  index : Int
  baudRateToError : QMap
  lastParserErrorCount : Int
  lastParserMsgsCount : Int
  deriving DecidableEq, Repr

/-- What the driver reads from its surroundings while handling one event: the elapsed time
of `_messageElapsedTimer` and the parser counters `parserErrors()` and `parsedMsgs()`. -/
structure Env where
  elapsed : Nat
  parserErrors : Int
  parsedMsgs : Int
  deriving DecidableEq, Repr

/-- The values of the `static` variables when the program starts, `count` being initialised
with the constant `_ABRTotalNumberOfMessages`. -/
def Statics.fresh (ABRTotalNumberOfMessages : Int) : Statics :=
  { count := ABRTotalNumberOfMessages, index := 0, baudRateToError := [],
    lastParserErrorCount := 0, lastParserMsgsCount := 0 }

/-! ## Sector scan controller -/

/-- The getter `angle()`. -/
def State.angle (s : State) : Int := s._angle

/-- The value of an `int` expression whose mathematical result is `x`: the representative of
`x` modulo 2^32 in `[-2147483648, 2147483648)`. -/
def wrap32 (x : Int) : Int := (x + 2147483648) % 4294967296 - 2147483648

/-- The function `std::clamp(v, lo, hi)`. -/
def clamp (v lo hi : Int) : Int :=
  if v < lo then lo else if hi < v then hi else v

/-- The lambda `isInside` of `requestNextProfile` (lines 121-128).  The two `int` additions of
line 122 and the negation of line 127 are reduced to 32 bits; the subtraction of line 125
acts on a remainder in `[200, 400)` and cannot leave the range of `int`. -/
def isInside (s : State) (iSteps : Int) : Bool :=
  let relativeAngle :=
    Int.tmod (wrap32 (wrap32 (iSteps + s.angle) + _angularResolutionGrad))
      _angularResolutionGrad
  let relativeAngle :=
    if relativeAngle ≥ Int.tdiv _angularResolutionGrad 2 then relativeAngle - _angularResolutionGrad
    else relativeAngle
  clamp relativeAngle (Int.tdiv (wrap32 (-s._sectorSize)) 2) (Int.tdiv s._sectorSize 2)
    == relativeAngle

/-- The step that `requestNextProfile` passes to `deltaStep`, with the state after the
direction updates (lines 112-141). -/
def selectStep (s : State) : State × Int :=
  let steps := s._angular_speed
  let steps := if s._reverse_direction then wrap32 (steps * -1) else steps
  let (s, steps) :=
    if !isInside s steps then
      ({ s with _reverse_direction := !s._reverse_direction }, wrap32 (steps * -1))
    else (s, steps)
  let (s, steps) :=
    if !isInside s steps then
      ({ s with _reverse_direction := !s._reverse_direction }, wrap32 (-s.angle))
    else (s, steps)
  (s, steps)

/-- The method `requestNextProfile` (lines 112-143): select the step, call `deltaStep`. -/
def requestNextProfile (s : State) : State × List Event :=
  let (s, steps) := selectStep s
  (s, [Event.deltaStep steps])

/-! ## Baud rate detection -/

/-- The read `validBaudRates()[i]`; `none` when `i` is not a position of the list. -/
def readAt (validBaudRates : List Int) (i : Int) : Option Int :=
  if 0 ≤ i then validBaudRates.get? i.toNat else none

/-- Lines 341-343: switch the link to the candidate at `index`, if there is one. -/
def setCandidate (validBaudRates : List Int) (index : Int) : Option (List Event) :=
  if index < (validBaudRates.length : Int) then
    (readAt validBaudRates index).map (fun b => [Event.setBaudRate b])
  else some []

/-- Lines 345-360: compute and record the error of the previous candidate, snapshot the
parser counters and increment `index`.  Returns `lastCounter` with the updated statics. -/
def recordScore (ABRTotalNumberOfMessages : Int) (validBaudRates : List Int) (env : Env)
    (st : Statics) : Option (Int × Statics) :=
  let recorded : Option (Int × QMap) :=
    if st.index ≠ 0 then
      let lastCounter :=
        env.parserErrors - st.lastParserErrorCount +
        ABRTotalNumberOfMessages - (env.parsedMsgs - st.lastParserMsgsCount)
      (readAt validBaudRates (st.index - 1)).map
        (fun b => (lastCounter, st.baudRateToError.assign b lastCounter))
    else some (-1, st.baudRateToError)
  recorded.map (fun r =>
    (r.1, { st with baudRateToError := r.2,
                    lastParserErrorCount := env.parserErrors,
                    lastParserMsgsCount := env.parsedMsgs,
                    index := st.index + 1 }))

/-- Lines 369-372: `index = 0; while(baudRateToError[validBaudRates()[index]] != 0) index++`.
The first argument is the part of the list from position `index` on; the loop reads past the
end of the list (`none`) when no candidate from there on has the value 0. -/
def scanWinner (m : QMap) : List Int → Int → Option Int
  | [], _ => none
  | b :: rest, index => if m.value b ≠ 0 then scanWinner m rest (index + 1) else some index

/-- Lines 362-379: the termination check and the choice of the committed baud rate. -/
def commitWinner (validBaudRates : List Int) (lastCounter : Int) (st : Statics) (s : State) :
    Option (Statics × State × List Event) :=
  if st.index = (validBaudRates.length : Int) ∨ lastCounter = 0 then
    let s := { s with _configuring := false }
    let index : Option Int :=
      if st.index ≠ (validBaudRates.length : Int) then scanWinner st.baudRateToError validBaudRates 0
      else some ((validBaudRates.length : Int) - 1)
    index.bind (fun i =>
      (readAt validBaudRates i).map (fun b => ({ st with index := i }, s, [Event.setBaudRate b])))
  else some (st, s, [])

/-- The method `detectBaudrates` (lines 325-380), one round of the detection. -/
def detectBaudrates (ABRTotalNumberOfMessages : Int) (validBaudRates : List Int) (env : Env)
    (st : Statics) (s : State) : Option (Statics × State × List Event) :=
  if !s._configuring then some (st, s, [])
  else
    (setCandidate validBaudRates st.index).bind (fun ev1 =>
      (recordScore ABRTotalNumberOfMessages validBaudRates env st).bind (fun r =>
        (commitWinner validBaudRates r.1 r.2 s).map (fun out =>
          (out.1, out.2.1, ev1 ++ out.2.2))))

/-- The method `checkBaudrateProcess` (lines 83-95). -/
def checkBaudrateProcess (ABRTotalNumberOfMessages : Int) (validBaudRates : List Int)
    (env : Env) (st : Statics) (s : State) : Option (Statics × State × List Event) :=
  let ev := [Event.writeDeviceInformationRequest]
  if st.count ≠ 0 then
    some ({ st with count := st.count - 1 }, s, ev ++ [Event.baudrateConfigurationTimerStart])
  else
    (detectBaudrates ABRTotalNumberOfMessages validBaudRates env
        { st with count := st.count - 1 } s).map
      (fun out => ({ out.1 with count := 20 }, out.2.1, ev ++ out.2.2))

/-! ## Message dispatch -/

/-- The call `_data.resize(n)`: truncate, or extend with default constructed zeros. -/
def resize (data : List ℚ) (n : Nat) : List ℚ :=
  data.take n ++ List.replicate (n - data.length) 0

/-- Lines 177-179: `_data.replace(i, deviceData.data()[i] / 255.0)` for `i` from 0 up to
`data_length`. -/
def normalizeInto (raw : List (Fin 256)) (data : List ℚ) : List ℚ :=
  (List.range raw.length).foldl
    (fun acc i => acc.set i (((raw.getD i 0).val : ℚ) / 255)) data

/-- The condition of lines 192-193 under which `dataChanged` is emitted. -/
def dataChangedCondition (s : State) : Bool :=
  s._sectorSize == 400
    || decide (s.angle ≥ _angularResolutionGrad - Int.tdiv s._sectorSize 2)
    || decide (s.angle ≤ Int.tdiv s._sectorSize 2)

/-- The method `handleMessage` (lines 145-239). -/
def handleMessage (ABRTotalNumberOfMessages : Int) (validBaudRates : List Int) (env : Env)
    (st : Statics) (s : State) (msg : ping_message) : Option (Statics × State × List Event) :=
  let s := { s with messageFrequencies := (msg.message_id, env.elapsed) :: s.messageFrequencies }
  let ev := [Event.messageFrequencyChanged]
  match msg.message_id with
  | MessageId.DEVICE_INFORMATION =>
    if s._configuring then
      (checkBaudrateProcess ABRTotalNumberOfMessages validBaudRates env st s).map
        (fun out => (out.1, out.2.1, ev ++ [Event.baudrateConfigurationTimerStart] ++ out.2.2))
    else
      let out := requestNextProfile s
      some (st, out.1,
        ev ++ [Event.baudrateConfigurationTimerStop, Event.timeoutProfileMessageStart] ++ out.2)
  | MessageId.DEVICE_DATA =>
    let s := { s with _angle := (msg.angle : Int) }
    let s := { s with _data := normalizeInto msg.data (resize s._data msg.data_length) }
    let ev := ev ++ [Event.angleChanged]
    let (s, ev) :=
      if s._data.length ≠ 0 then
        let s := { s with _ping_number := s._ping_number + 1 }
        if dataChangedCondition s then (s, ev ++ [Event.dataChanged]) else (s, ev)
      else (s, ev)
    let out := requestNextProfile s
    some (st, out.1, ev ++ out.2 ++ [Event.timeoutProfileMessageStart, Event.parsedMsgsUpdate])
  | MessageId.NACK =>
    if msg.nacked_id = MessageId.TRANSDUCER then
      let s := { s with _gain_setting := _firmwareDefaultGainSetting,
                        _transmit_duration := _firmwareDefaultTransmitDuration,
                        _sample_period := _firmwareDefaultSamplePeriod,
                        _transmit_frequency := _viewerDefaultTransmitFrequency,
                        _num_points := _viewerDefaultNumberOfSamples }
      let out := requestNextProfile s
      some (st, out.1,
        ev ++ out.2 ++
          [Event.timeoutProfileMessageStart, Event.gainSettingChanged,
           Event.transmitDurationChanged, Event.samplePeriodChanged,
           Event.transmitFrequencyChanged, Event.numberOfPointsChanged, Event.rangeChanged,
           Event.parsedMsgsUpdate])
    else some (st, s, ev ++ [Event.parsedMsgsUpdate])
  | _ => some (st, s, ev ++ [Event.parsedMsgsUpdate])

/-- The update of the frequency tracker that opens `handleMessage` (line 150). -/
def tracked (env : Env) (s : State) (msg : ping_message) : State :=
  { s with messageFrequencies := (msg.message_id, env.elapsed) :: s.messageFrequencies }

/-- The assignments of lines 212-216. -/
def revertedToDefaults (s : State) : State :=
  { s with _gain_setting := _firmwareDefaultGainSetting,
           _transmit_duration := _firmwareDefaultTransmitDuration,
           _sample_period := _firmwareDefaultSamplePeriod,
           _transmit_frequency := _viewerDefaultTransmitFrequency,
           _num_points := _viewerDefaultNumberOfSamples }

/-! ## Detection sessions -/

/-- The baud rate of the last `setBaudRate` call of a trace, if there is one. -/
def lastSetBaudRate : List Event → Option Int
  | [] => none
  | e :: rest =>
    match lastSetBaudRate rest with
    | some b => some b
    | none =>
      match e with
      | Event.setBaudRate b => some b
      | _ => none

/-- A detection session: `detectBaudrates` is called round after round, round `r` reading
the parser counters `readings r`, until `_configuring` is false.  At most `fuel` rounds are
run; `none` when a round reads outside the list or the rounds allowed do not suffice. -/
def runSession (ABRTotalNumberOfMessages : Int) (validBaudRates : List Int)
    (readings : Nat → Env) : Nat → Nat → Statics → State → Option (Statics × State × List Event)
  | 0, _, st, s => if s._configuring then none else some (st, s, [])
  | fuel + 1, r, st, s =>
    if s._configuring then
      (detectBaudrates ABRTotalNumberOfMessages validBaudRates (readings r) st s).bind
        (fun out =>
          (runSession ABRTotalNumberOfMessages validBaudRates readings fuel (r + 1)
              out.1 out.2.1).map
            (fun fin => (fin.1, fin.2.1, out.2.2 ++ fin.2.2)))
    else some (st, s, [])

/-- The baud rate a session commits: the argument of its last `setBaudRate` call, once
`_configuring` is false. -/
def committedRate (ABRTotalNumberOfMessages : Int) (validBaudRates : List Int)
    (readings : Nat → Env) (fuel : Nat) (st : Statics) (s : State) : Option Int :=
  (runSession ABRTotalNumberOfMessages validBaudRates readings fuel 0 st s).bind
    (fun fin => if fin.2.1._configuring then none else lastSetBaudRate fin.2.2)

/-- The error score that the counter readings give candidate `j`: the value of line 350-354
in round `j + 1`, whose baselines are the readings of round `j`. -/
def scoreOf (ABRTotalNumberOfMessages : Int) (readings : Nat → Env) (j : Nat) : Int :=
  (readings (j + 1)).parserErrors - (readings j).parserErrors +
    ABRTotalNumberOfMessages - ((readings (j + 1)).parsedMsgs - (readings j).parsedMsgs)

/-- Counter readings that realise a given list of scores: no parser error ever, and in the
round that scores candidate `j` the device has answered `ABRTotalNumberOfMessages - scores[j]`
probes. -/
def readingsOfScores (ABRTotalNumberOfMessages : Int) (scores : List Int) (r : Nat) : Env :=
  { elapsed := 0, parserErrors := 0,
    parsedMsgs := ((scores.take r).map (fun x => ABRTotalNumberOfMessages - x)).sum }

/-- A device state at the start of a detection session. -/
def State.configuringStart : State :=
  { _angle := 0, _sectorSize := 400, _angular_speed := 1, _reverse_direction := false,
    _gain_setting := 0, _transmit_duration := 32, _sample_period := 80,
    _transmit_frequency := 740, _num_points := 1024, _data := [], _ping_number := 0,
    _configuring := true, messageFrequencies := [] }

/-- The statics and the device state after the first `r` rounds of a session, round `i`
reading the parser counters `readings i`; `none` when a round reads outside the list. -/
def runRounds (ABRTotalNumberOfMessages : Int) (validBaudRates : List Int)
    (readings : Nat → Env) : Nat → Statics → State → Option (Statics × State)
  | 0, st, s => some (st, s)
  | r + 1, st, s =>
    (runRounds ABRTotalNumberOfMessages validBaudRates readings r st s).bind
      (fun p =>
        (detectBaudrates ABRTotalNumberOfMessages validBaudRates (readings r) p.1 p.2).map
          (fun out => (out.1, out.2.1)))

/-- The statics, the device state and the trace after `m` successive calls of
`checkBaudrateProcess`, call `i` reading the parser counters `readings i`. -/
def runChecks (ABRTotalNumberOfMessages : Int) (validBaudRates : List Int)
    (readings : Nat → Env) : Nat → Statics → State → Option (Statics × State × List Event)
  | 0, st, s => some (st, s, [])
  | m + 1, st, s =>
    (runChecks ABRTotalNumberOfMessages validBaudRates readings m st s).bind
      (fun p =>
        (checkBaudrateProcess ABRTotalNumberOfMessages validBaudRates (readings m)
            p.1 p.2.1).map
          (fun out => (out.1, out.2.1, p.2.2 ++ out.2.2)))

/-! ## Specification side notions -/

/-- The bearing reached from `angle` by `step`, as the specification states it: `(angle + step)
mod 400`, the mathematical residue in `[0, 400)`. -/
def bearingAfter (angle step : Int) : Int := (angle + step) % 400

/-- The signed representative in `[-200, 200)` of a bearing in `[0, 400)`. -/
def signedRepresentative (bearing : Int) : Int :=
  if bearing ≥ 200 then bearing - 400 else bearing

/-- The band of the specification: the signed bearing lies in `[-W/2, W/2]`, integer division. -/
def inBand (sectorSize signedBearing : Int) : Prop :=
  -(sectorSize / 2) ≤ signedBearing ∧ signedBearing ≤ sectorSize / 2

instance (sectorSize signedBearing : Int) : Decidable (inBand sectorSize signedBearing) := by
  unfold inBand; infer_instance

/-- The rule by which the code chooses the rate `c` it commits, in terms of the scores: the
lowest-indexed candidate with score 0 when that candidate has at least two candidates after
it, and the last candidate when no candidate with at least two candidates after it has
score 0. -/
def CommitRule (ABRTotalNumberOfMessages : Int) (validBaudRates : List Int)
    (readings : Nat → Env) (c : Int) : Prop :=
  (∀ j b, j + 2 < validBaudRates.length → validBaudRates[j]? = some b →
      scoreOf ABRTotalNumberOfMessages readings j = 0 →
      (∀ i, i < j → scoreOf ABRTotalNumberOfMessages readings i ≠ 0) → c = b) ∧
  ((∀ j, j + 2 < validBaudRates.length → scoreOf ABRTotalNumberOfMessages readings j ≠ 0) →
      validBaudRates[validBaudRates.length - 1]? = some c)

/-- The number of next-profile requests (`deltaStep` calls) in a trace. -/
def countRequests (ev : List Event) : Nat :=
  (ev.filter (fun e => match e with | Event.deltaStep _ => true | _ => false)).length

/-! ## Concrete inputs -/

/-- A NACK that names the transducer-control command. -/
def nackTransducer : ping_message :=
  { message_id := MessageId.NACK, angle := 0, data := [], nacked_id := MessageId.TRANSDUCER }

/-- A device state in normal acquisition: bearing 0, full circle, no detection running. -/
def State.acquiring : State := { State.configuringStart with _configuring := false }

/-- A profile message at bearing 30 that carries no sample. -/
def deviceDataEmpty : ping_message :=
  { message_id := MessageId.DEVICE_DATA, angle := 30, data := [], nacked_id := MessageId.other 0 }

/-- A profile message at bearing 30 with the raw samples 0, 255 and 128. -/
def deviceDataThree : ping_message :=
  { message_id := MessageId.DEVICE_DATA, angle := 30, data := [0, 255, 128],
    nacked_id := MessageId.other 0 }

/-- A device-information answer. -/
def deviceInformation : ping_message :=
  { message_id := MessageId.DEVICE_INFORMATION, angle := 0, data := [],
    nacked_id := MessageId.other 0 }

/-- The candidate list used in the examples. -/
def fiveRates : List Int := [9600, 19200, 38400, 57600, 115200]

/-- The statics that the session over `fiveRates` with the scores 3, 0, 0, 2, 1 leaves
behind: `index` at the committed position 1, the two scores recorded, the last baselines. -/
def retainedStatics : Statics :=
  { count := 20, index := 1, baudRateToError := [(19200, 0), (9600, 3)],
    lastParserErrorCount := 0, lastParserMsgsCount := 37 }

/-- The parser counters of a device that never answers and never sends garbage. -/
def silentReadings (_ : Nat) : Env := { elapsed := 0, parserErrors := 0, parsedMsgs := 0 }

/-- The trace of `m` calls of `checkBaudrateProcess` that only probe and re-arm the timer. -/
def timerCalls (m : Nat) : List Event :=
  (List.replicate m
    [Event.writeDeviceInformationRequest, Event.baudrateConfigurationTimerStart]).flatten

/-! ## Sector scan controller: proofs -/

theorem tmod_400_of_nonneg (x : Int) (h : 0 ≤ x) : x.tmod 400 = x % 400 :=
  Int.tmod_eq_emod h (by decide)

theorem tmod_400_of_neg (x : Int) (h : x < 0) : x.tmod 400 = -((-x) % 400) := by
  have h1 : x = -(-x) := by omega
  rw [Int.tmod_def]
  conv_lhs => rw [h1, Int.neg_tdiv, Int.tdiv_eq_ediv (by omega) (by decide)]
  omega

theorem tdiv_two_of_nonneg (w : Int) (h : 0 ≤ w) : w.tdiv 2 = w / 2 :=
  Int.tdiv_eq_ediv h (by decide)

theorem neg_tdiv_two_of_nonneg (w : Int) (h : 0 ≤ w) : (-w).tdiv 2 = -(w / 2) := by
  rw [Int.neg_tdiv, Int.tdiv_eq_ediv h (by decide)]

/-- An `int` result that fits 32 bits is the mathematical result. -/
theorem wrap32_of_inRange (x : Int) (h1 : -2147483648 ≤ x) (h2 : x ≤ 2147483647) :
    wrap32 x = x := by
  unfold wrap32
  omega

/-- Two successive additions wrap as their sum does. -/
theorem wrap32_add (a b : Int) : wrap32 (wrap32 a + b) = wrap32 (a + b) := by
  unfold wrap32
  omega

/-- Unfolding of `isInside` for a sector size that is not negative. -/
theorem isInside_eq (s : State) (iSteps : Int) (hW : 0 ≤ s._sectorSize)
    (hW' : s._sectorSize ≤ 2147483647) :
    isInside s iSteps = true ↔
      (-(s._sectorSize / 2) ≤
          (if (wrap32 (iSteps + s._angle + 400)).tmod 400 ≥ 200 then
            (wrap32 (iSteps + s._angle + 400)).tmod 400 - 400
           else (wrap32 (iSteps + s._angle + 400)).tmod 400) ∧
        (if (wrap32 (iSteps + s._angle + 400)).tmod 400 ≥ 200 then
            (wrap32 (iSteps + s._angle + 400)).tmod 400 - 400
         else (wrap32 (iSteps + s._angle + 400)).tmod 400) ≤ s._sectorSize / 2) := by
  have h200 : Int.tdiv 400 2 = 200 := by decide
  have hneg : wrap32 (-s._sectorSize) = -s._sectorSize :=
    wrap32_of_inRange _ (by omega) (by omega)
  simp only [isInside, State.angle, clamp, _angularResolutionGrad, h200, wrap32_add, hneg,
    neg_tdiv_two_of_nonneg _ hW, tdiv_two_of_nonneg _ hW, beq_iff_eq]
  have hw : 0 ≤ s._sectorSize / 2 := by omega
  split_ifs <;> constructor <;> intro h <;> omega

/-- A step that `isInside` accepts leads to a bearing in the band, as long as the sum of
line 122 does not leave the range of `int`. -/
theorem isInside_sound (s : State) (iSteps : Int) (hW : 0 ≤ s._sectorSize)
    (hW' : s._sectorSize ≤ 400) (hlo : -2147483648 ≤ iSteps + s._angle + 400)
    (hhi : iSteps + s._angle + 400 ≤ 2147483647) (h : isInside s iSteps = true) :
    inBand s._sectorSize (signedRepresentative (bearingAfter s._angle iSteps)) := by
  rw [isInside_eq s iSteps hW (by omega), wrap32_of_inRange _ hlo hhi] at h
  simp only [inBand, signedRepresentative, bearingAfter]
  rcases lt_or_le (iSteps + s._angle + 400) 0 with hx | hx
  · rw [tmod_400_of_neg _ hx] at h
    split_ifs at h ⊢ <;> omega
  · rw [tmod_400_of_nonneg _ hx] at h
    split_ifs at h ⊢ <;> omega

/-- C3 (as amended): for every angle in [0, 400), every sector width W in [0, 400] and every
`int` step for which the sum `step + angle + 400` of line 122 does not exceed 2147483647 (no
overflow): a step that `isInside` accepts leads to a bearing `(angle + step) mod 400` whose
signed representative in [-200, 200) lies in `[-W/2, W/2]`; when `step + angle + 400 ≥ 0`
(no more than one full turn backwards), `isInside step` is true if and only if that signed
representative lies in `[-W/2, W/2]`; and when `step + angle + 400 < 0`, `isInside step` is
true if and only if it lies in `[-W/2, 0]`. -/
theorem isInside_iff_inBand (s : State) (iSteps : Int) (ha : 0 ≤ s._angle)
    (ha' : s._angle < 400) (hW : 0 ≤ s._sectorSize) (hW' : s._sectorSize ≤ 400)
    (hint : -2147483648 ≤ iSteps) (hhi : iSteps + s._angle + 400 ≤ 2147483647) :
    (isInside s iSteps = true →
      inBand s._sectorSize (signedRepresentative (bearingAfter s._angle iSteps))) ∧
    (0 ≤ iSteps + s._angle + 400 →
      (isInside s iSteps = true ↔
        inBand s._sectorSize (signedRepresentative (bearingAfter s._angle iSteps)))) ∧
    (iSteps + s._angle + 400 < 0 →
      (isInside s iSteps = true ↔
        (inBand s._sectorSize (signedRepresentative (bearingAfter s._angle iSteps)) ∧
          signedRepresentative (bearingAfter s._angle iSteps) ≤ 0))) := by
  refine ⟨isInside_sound s iSteps hW hW' (by omega) hhi, ?_, ?_⟩
  · intro hstep
    rw [isInside_eq s iSteps hW (by omega), wrap32_of_inRange _ (by omega) hhi,
      tmod_400_of_nonneg _ hstep]
    simp only [inBand, signedRepresentative, bearingAfter]
    split_ifs <;> constructor <;> intro h <;> omega
  · intro hstep
    rw [isInside_eq s iSteps hW (by omega), wrap32_of_inRange _ (by omega) hhi,
      tmod_400_of_neg _ hstep]
    simp only [inBand, signedRepresentative, bearingAfter]
    split_ifs <;> constructor <;> intro h <;> omega

/-- Witness of `isInside_iff_inBand`: bearing 10, sector 100, one step forward. -/
theorem isInside_iff_inBand_witness :
    (0 : Int) ≤ 10 ∧ (10 : Int) < 400 ∧ (0 : Int) ≤ 100 ∧ (100 : Int) ≤ 400 ∧
      (-2147483648 : Int) ≤ 1 ∧ (1 : Int) + 10 + 400 ≤ 2147483647 ∧ (0 : Int) ≤ 1 + 10 + 400 ∧
      (isInside { State.configuringStart with _angle := 10, _sectorSize := 100 } 1 = true ↔
        inBand 100 (signedRepresentative (bearingAfter 10 1))) :=
  ⟨by decide, by decide, by decide, by decide, by decide, by decide, by decide,
    (isInside_iff_inBand { State.configuringStart with _angle := 10, _sectorSize := 100 } 1
      (by decide) (by decide) (by decide) (by decide) (by decide) (by decide)).2.1
      (by decide)⟩

/-- C3 (counterexample): at bearing 0 with the full circle as sector, a step of 700 units
backwards leads to bearing 100, inside the band, and `isInside` rejects it; at bearing 39
with a sector of width 20, the step 2147483647 leads to bearing 86, outside the band, and
`isInside`, whose sum overflows, accepts it. -/
theorem isInside_rejects_bearing_in_band :
    (isInside { State.configuringStart with _angle := 0, _sectorSize := 400 } (-700) = false ∧
      inBand 400 (signedRepresentative (bearingAfter 0 (-700)))) ∧
    (isInside { State.configuringStart with _angle := 39, _sectorSize := 20 } 2147483647
        = true ∧
      bearingAfter 39 2147483647 = 86 ∧
      ¬ inBand 20 (signedRepresentative (bearingAfter 39 2147483647))) := by
  decide

/-- The three outcomes of the step selection, on the step alone. -/
theorem selectStep_cases (s : State) :
    selectStep s =
      (if isInside s (if s._reverse_direction then wrap32 (-s._angular_speed)
            else s._angular_speed) then
        (s, if s._reverse_direction then wrap32 (-s._angular_speed) else s._angular_speed)
       else if isInside s (wrap32 (-(if s._reverse_direction then wrap32 (-s._angular_speed)
            else s._angular_speed))) then
         ({ s with _reverse_direction := !s._reverse_direction },
           wrap32 (-(if s._reverse_direction then wrap32 (-s._angular_speed)
             else s._angular_speed)))
       else (s, wrap32 (-s._angle))) := by
  have hflip : ∀ x, isInside { s with _reverse_direction := !s._reverse_direction } x
      = isInside s x := fun _ => rfl
  unfold selectStep
  simp only [mul_neg, mul_one]
  by_cases h1 : isInside s
      (if s._reverse_direction then wrap32 (-s._angular_speed) else s._angular_speed)
  · simp [h1]
  · by_cases h2 : isInside s
        (wrap32 (-(if s._reverse_direction then wrap32 (-s._angular_speed)
          else s._angular_speed)))
    · simp [h1, h2, hflip]
    · simp [h1, h2, hflip, State.angle]

/-- The three outcomes of the step selection. -/
theorem requestNextProfile_cases (s : State) :
    requestNextProfile s =
      (if isInside s (if s._reverse_direction then wrap32 (-s._angular_speed)
            else s._angular_speed) then
        (s, [Event.deltaStep
          (if s._reverse_direction then wrap32 (-s._angular_speed) else s._angular_speed)])
       else if isInside s (wrap32 (-(if s._reverse_direction then wrap32 (-s._angular_speed)
            else s._angular_speed))) then
         ({ s with _reverse_direction := !s._reverse_direction },
           [Event.deltaStep (wrap32 (-(if s._reverse_direction then
             wrap32 (-s._angular_speed) else s._angular_speed)))])
       else (s, [Event.deltaStep (wrap32 (-s._angle))])) := by
  unfold requestNextProfile
  rw [selectStep_cases]
  split_ifs <;> rfl

/-- C5: with `s0` the angular speed, negated when `_reverse_direction` is set,
`requestNextProfile` passes to `deltaStep` the step `s0` and keeps the direction if
`isInside s0`; otherwise passes `-s0` and flips the direction if `isInside (-s0)`;
otherwise passes `-angle` with the direction as it was.  It changes no other field.
First for every state, each negation being the `int` negation of the code (reduced to 32
bits); then, for every state whose angular speed and angle are `int` values other than
-2147483648, with each negation the exact one. -/
theorem requestNextProfile_selection (s : State) :
    requestNextProfile s =
      (let s0 := if s._reverse_direction then wrap32 (-s._angular_speed) else s._angular_speed
       if isInside s s0 then (s, [Event.deltaStep s0])
       else if isInside s (wrap32 (-s0)) then
         ({ s with _reverse_direction := !s._reverse_direction },
           [Event.deltaStep (wrap32 (-s0))])
       else (s, [Event.deltaStep (wrap32 (-s._angle))])) ∧
    (-2147483647 ≤ s._angular_speed → s._angular_speed ≤ 2147483647 →
      -2147483647 ≤ s._angle → s._angle ≤ 2147483647 →
      requestNextProfile s =
        (let s0 := if s._reverse_direction then -s._angular_speed else s._angular_speed
         if isInside s s0 then (s, [Event.deltaStep s0])
         else if isInside s (-s0) then
           ({ s with _reverse_direction := !s._reverse_direction }, [Event.deltaStep (-s0)])
         else (s, [Event.deltaStep (-s._angle)]))) := by
  refine ⟨requestNextProfile_cases s, ?_⟩
  intro h1 h2 h3 h4
  have hsp : wrap32 (-s._angular_speed) = -s._angular_speed :=
    wrap32_of_inRange _ (by omega) (by omega)
  have hsp' : wrap32 (- -s._angular_speed) = - -s._angular_speed :=
    wrap32_of_inRange _ (by omega) (by omega)
  have han : wrap32 (-s._angle) = -s._angle := wrap32_of_inRange _ (by omega) (by omega)
  rw [requestNextProfile_cases]
  rcases Bool.eq_false_or_eq_true s._reverse_direction with hrev | hrev
  · simp only [hrev, if_true, hsp, hsp', han]
  · simp only [hrev, Bool.false_eq_true, if_false, hsp, han]

/-- The step selected when no sum overflows: one of the two sweep steps, which `isInside`
accepts, or the step back to bearing 0. -/
theorem selectStep_step (s : State) (hsp : 0 ≤ s._angular_speed)
    (hhi : s._angular_speed ≤ 2147483647) (ha : -2147483647 ≤ s._angle)
    (ha' : s._angle ≤ 2147483647) :
    (((selectStep s).2 = s._angular_speed ∨ (selectStep s).2 = -s._angular_speed) ∧
        isInside s (selectStep s).2 = true) ∨
      (selectStep s).2 = -s._angle := by
  have h1 : wrap32 (-s._angular_speed) = -s._angular_speed :=
    wrap32_of_inRange _ (by omega) (by omega)
  have h2 : wrap32 (- -s._angular_speed) = s._angular_speed := by
    rw [neg_neg]; exact wrap32_of_inRange _ (by omega) (by omega)
  have han : wrap32 (-s._angle) = -s._angle := wrap32_of_inRange _ (by omega) (by omega)
  rw [selectStep_cases]
  rcases Bool.eq_false_or_eq_true s._reverse_direction with hrev | hrev
  · simp only [hrev, if_true, h1, h2, han]
    split_ifs with hA hB
    · exact Or.inl ⟨Or.inr rfl, hA⟩
    · exact Or.inl ⟨Or.inl rfl, hB⟩
    · exact Or.inr rfl
  · simp only [hrev, Bool.false_eq_true, if_false, h1, han]
    split_ifs with hA hB
    · exact Or.inl ⟨Or.inl rfl, hA⟩
    · exact Or.inl ⟨Or.inr rfl, hB⟩
    · exact Or.inr rfl

/-- C4 (as amended): for every state with angle in [0, 400), sector size in [0, 400] and an
angular speed that is not negative and for which `angularSpeed + angle + 400` does not
exceed 2147483647 (the sum of line 122 does not overflow), and either sweep direction, the
step that `requestNextProfile` passes to `deltaStep` leads to a bearing `(angle + step) mod
400` in [0, 400) whose signed representative lies in `[-sectorSize/2, sectorSize/2]`, and
`isInside` accepts that step. -/
theorem requestNextProfile_stays_in_sector (s : State) (ha : 0 ≤ s._angle)
    (ha' : s._angle < 400) (hW : 0 ≤ s._sectorSize) (hW' : s._sectorSize ≤ 400)
    (hsp : 0 ≤ s._angular_speed) (hhi : s._angular_speed + s._angle + 400 ≤ 2147483647) :
    (requestNextProfile s).2 = [Event.deltaStep (selectStep s).2] ∧
      0 ≤ bearingAfter s._angle (selectStep s).2 ∧
      bearingAfter s._angle (selectStep s).2 < 400 ∧
      isInside s (selectStep s).2 = true ∧
      inBand s._sectorSize (signedRepresentative (bearingAfter s._angle (selectStep s).2)) := by
  have hband : isInside s (selectStep s).2 = true ∧
      inBand s._sectorSize (signedRepresentative (bearingAfter s._angle (selectStep s).2)) := by
    rcases selectStep_step s hsp (by omega) (by omega) (by omega) with ⟨hstep, hin⟩ | hback
    · refine ⟨hin, isInside_sound s _ hW hW' ?_ ?_ hin⟩
      · rcases hstep with h | h <;> rw [h] <;> omega
      · rcases hstep with h | h <;> rw [h] <;> omega
    · rw [hback]
      have hzero : isInside s (-s._angle) = true := by
        rw [isInside_eq s _ hW (by omega)]
        have h400 : (-s._angle + s._angle + 400 : Int) = 400 := by omega
        rw [h400, wrap32_of_inRange 400 (by decide) (by decide)]
        have h0 : (400 : Int).tmod 400 = 0 := by decide
        simp only [h0]
        omega
      exact ⟨hzero, isInside_sound s _ hW hW' (by omega) (by omega) hzero⟩
  refine ⟨rfl, ?_, ?_, hband.1, hband.2⟩
  · exact Int.emod_nonneg _ (by decide)
  · exact Int.emod_lt_of_pos _ (by decide)

/-- Witness of `requestNextProfile_stays_in_sector`: bearing 50 at the edge of a sector of
width 100, sweeping forward. -/
theorem requestNextProfile_stays_in_sector_witness :
    (0 : Int) ≤ 50 ∧ (50 : Int) < 400 ∧ (0 : Int) ≤ 100 ∧ (100 : Int) ≤ 400 ∧ (0 : Int) ≤ 1 ∧
      (1 : Int) + 50 + 400 ≤ 2147483647 ∧
      (requestNextProfile { State.configuringStart with _angle := 50, _sectorSize := 100 }).2
        = [Event.deltaStep (-1)] ∧
      inBand 100 (signedRepresentative (bearingAfter 50 (-1))) :=
  have h := requestNextProfile_stays_in_sector
    { State.configuringStart with _angle := 50, _sectorSize := 100 } (by decide) (by decide)
    (by decide) (by decide) (by decide) (by decide)
  ⟨by decide, by decide, by decide, by decide, by decide, by decide, h.1, h.2.2.2.2⟩

/-- C4 (counterexample): at bearing 39 with a sector of width 20 and the angular speed
2147483647, sweeping forward, the sum of line 122 overflows, `isInside` accepts the step and
`deltaStep` receives 2147483647, which leads to bearing 86, outside `[-10, 10]`. -/
theorem requestNextProfile_leaves_sector_on_overflow :
    (0 : Int) ≤ 39 ∧ (39 : Int) < 400 ∧ (0 : Int) ≤ 20 ∧ (20 : Int) ≤ 400 ∧
      (0 : Int) ≤ 2147483647 ∧
      (requestNextProfile { State.configuringStart with
          _angle := 39, _sectorSize := 20, _angular_speed := 2147483647 }).2
        = [Event.deltaStep 2147483647] ∧
      bearingAfter 39 2147483647 = 86 ∧
      ¬ inBand 20 (signedRepresentative (bearingAfter 39 2147483647)) := by
  decide

/-! ## Baud rate detection: proofs -/

theorem readAt_natCast (l : List Int) (k : Nat) : readAt l (k : Int) = l[k]? := by
  simp [readAt]

theorem readAt_isSome (l : List Int) (i : Int) (h0 : 0 ≤ i) (h1 : i < (l.length : Int)) :
    ∃ b, readAt l i = some b := by
  obtain ⟨k, rfl⟩ := Int.eq_ofNat_of_zero_le h0
  have hk : k < l.length := by omega
  exact ⟨l[k], by rw [readAt_natCast]; exact List.getElem?_eq_getElem hk⟩

theorem QMap.value_assign_same (m : QMap) (k v : Int) : (m.assign k v).value k = v := by
  simp [QMap.value, QMap.assign, List.lookup]

theorem QMap.value_assign_other (m : QMap) (k k' v : Int) (h : k' ≠ k) :
    (m.assign k v).value k' = m.value k' := by
  have : (k' == k) = false := by simpa using h
  simp [QMap.value, QMap.assign, List.lookup, this]

/-- The scan stops at the first position whose candidate has the value 0. -/
theorem scanWinner_first_zero (m : QMap) :
    ∀ (l : List Int) (base : Int) (j : Nat) (b : Int), l[j]? = some b → m.value b = 0 →
      (∀ i c, i < j → l[i]? = some c → m.value c ≠ 0) →
      scanWinner m l base = some (base + j)
  | [], _, j, b, hj, _, _ => by simp at hj
  | a :: rest, base, 0, b, hj, hb, _ => by
    simp only [List.getElem?_cons_zero, Option.some.injEq] at hj
    subst hj
    simp [scanWinner, hb]
  | a :: rest, base, j + 1, b, hj, hb, hlt => by
    have ha : m.value a ≠ 0 := hlt 0 a (by omega) (by simp)
    have hrec := scanWinner_first_zero m rest (base + 1) j b (by simpa using hj) hb
      (fun i c hi hc => hlt (i + 1) c (by omega) (by simpa using hc))
    simp only [scanWinner, ha, ne_eq, not_false_eq_true, if_true, hrec]
    congr 1
    push_cast
    omega

/-- The scan ends inside the list as soon as some candidate has the value 0. -/
theorem scanWinner_isSome (m : QMap) :
    ∀ (l : List Int) (base : Int), (∃ b ∈ l, m.value b = 0) →
      ∃ j : Nat, j < l.length ∧ scanWinner m l base = some (base + j)
  | [], _, h => by simp at h
  | a :: rest, base, h => by
    by_cases ha : m.value a = 0
    · exact ⟨0, by simp, by simp [scanWinner, ha]⟩
    · obtain ⟨b, hb, hb0⟩ := h
      have hb' : b ∈ rest := by
        rcases List.mem_cons.mp hb with rfl | hmem
        · exact absurd hb0 ha
        · exact hmem
      obtain ⟨j, hj, hscan⟩ := scanWinner_isSome m rest (base + 1) ⟨b, hb', hb0⟩
      refine ⟨j + 1, by simpa using hj, ?_⟩
      simp only [scanWinner, ha, ne_eq, not_false_eq_true, if_true, hscan]
      congr 1
      push_cast
      omega

theorem commitWinner_isSome (validBaudRates : List Int) (lastCounter : Int) (st : Statics)
    (s : State) (hn : st.index = (validBaudRates.length : Int) → 1 ≤ validBaudRates.length)
    (hz : st.index ≠ (validBaudRates.length : Int) → lastCounter = 0 →
      ∃ b ∈ validBaudRates, st.baudRateToError.value b = 0) :
    ∃ out, commitWinner validBaudRates lastCounter st s = some out := by
  unfold commitWinner
  by_cases hend : st.index = (validBaudRates.length : Int)
  · obtain ⟨b, hb⟩ := readAt_isSome validBaudRates ((validBaudRates.length : Int) - 1)
      (by have := hn hend; omega) (by omega)
    simp [hend, hb]
  · by_cases hlc : lastCounter = 0
    · obtain ⟨j, hj, hscan⟩ := scanWinner_isSome st.baudRateToError validBaudRates 0 (hz hend hlc)
      obtain ⟨b, hb⟩ := readAt_isSome validBaudRates (0 + (j : Int)) (by omega) (by omega)
      rw [zero_add] at hscan hb
      simp [hend, hlc, hscan, hb]
    · simp [hend, hlc]

theorem mem_of_readAt (l : List Int) (i b : Int) (h : readAt l i = some b) : b ∈ l := by
  unfold readAt at h
  split_ifs at h
  exact List.get?_mem h

/-- A round is defined whenever `index` is a position of the list or its length. -/
theorem detectBaudrates_isSome (ABR : Int) (validBaudRates : List Int) (env : Env)
    (st : Statics) (s : State) (h0 : 0 ≤ st.index)
    (h1 : st.index ≤ (validBaudRates.length : Int)) :
    ∃ out, detectBaudrates ABR validBaudRates env st s = some out := by
  unfold detectBaudrates
  by_cases hc : s._configuring = true
  swap
  · simp [hc]
  have hset : ∃ ev1, setCandidate validBaudRates st.index = some ev1 := by
    unfold setCandidate
    by_cases hlt : st.index < (validBaudRates.length : Int)
    · obtain ⟨b, hb⟩ := readAt_isSome validBaudRates st.index h0 hlt
      simp [hlt, hb]
    · simp [hlt]
  obtain ⟨ev1, hev1⟩ := hset
  by_cases hidx : st.index = 0
  · have hrec : recordScore ABR validBaudRates env st =
        some (-1, { st with lastParserErrorCount := env.parserErrors,
                            lastParserMsgsCount := env.parsedMsgs, index := st.index + 1 }) := by
      simp [recordScore, hidx]
    obtain ⟨out, hout⟩ := commitWinner_isSome validBaudRates (-1)
      { st with lastParserErrorCount := env.parserErrors,
                lastParserMsgsCount := env.parsedMsgs, index := st.index + 1 } s
      (by simp only; omega) (by simp)
    simp [hc, hev1, hrec, hout]
  · obtain ⟨b, hb⟩ := readAt_isSome validBaudRates (st.index - 1) (by omega) (by omega)
    have hrec : recordScore ABR validBaudRates env st =
        some (env.parserErrors - st.lastParserErrorCount + ABR -
                (env.parsedMsgs - st.lastParserMsgsCount),
              { st with baudRateToError := st.baudRateToError.assign b
                          (env.parserErrors - st.lastParserErrorCount + ABR -
                            (env.parsedMsgs - st.lastParserMsgsCount)),
                        lastParserErrorCount := env.parserErrors,
                        lastParserMsgsCount := env.parsedMsgs, index := st.index + 1 }) := by
      simp [recordScore, hidx, hb]
    obtain ⟨out, hout⟩ := commitWinner_isSome validBaudRates
      (env.parserErrors - st.lastParserErrorCount + ABR -
        (env.parsedMsgs - st.lastParserMsgsCount))
      { st with baudRateToError := st.baudRateToError.assign b
                  (env.parserErrors - st.lastParserErrorCount + ABR -
                    (env.parsedMsgs - st.lastParserMsgsCount)),
                lastParserErrorCount := env.parserErrors,
                lastParserMsgsCount := env.parsedMsgs, index := st.index + 1 } s
      (by simp only; omega)
      (by
        intro _ hlc
        refine ⟨b, mem_of_readAt _ _ _ hb, ?_⟩
        simp only
        rw [hlc]
        exact QMap.value_assign_same _ _ _)
    simp [hc, hev1, hrec, hout]

/-- What the termination check leaves untouched, and what it emits. -/
theorem commitWinner_effect (validBaudRates : List Int) (lastCounter : Int) (st : Statics)
    (s : State) (out : Statics × State × List Event)
    (h : commitWinner validBaudRates lastCounter st s = some out) :
    out.1.baudRateToError = st.baudRateToError ∧
      out.1.lastParserErrorCount = st.lastParserErrorCount ∧
      out.1.lastParserMsgsCount = st.lastParserMsgsCount ∧
      out.1.count = st.count ∧
      (out.2.1._configuring = true → out.1.index = st.index) ∧
      out.2.1 = { s with _configuring := out.2.1._configuring } ∧
      (∀ e ∈ out.2.2, ∃ b, e = Event.setBaudRate b) := by
  unfold commitWinner at h
  split_ifs at h with hterm hend
  · simp only [Option.bind_eq_some, Option.map_eq_some'] at h
    obtain ⟨i, _, b, _, rfl⟩ := h
    simp
  · simp only [Option.bind_eq_some, Option.map_eq_some'] at h
    obtain ⟨i, _, b, _, rfl⟩ := h
    simp
  · simp only [Option.some.injEq] at h
    subst h
    simp

/-- A round run while configuring is the composition of its three parts. -/
theorem detectBaudrates_eq_some (ABR : Int) (validBaudRates : List Int) (env : Env)
    (st : Statics) (s : State) (hc : s._configuring = true)
    (out : Statics × State × List Event)
    (h : detectBaudrates ABR validBaudRates env st s = some out) :
    ∃ ev1 r out', setCandidate validBaudRates st.index = some ev1 ∧
      recordScore ABR validBaudRates env st = some r ∧
      commitWinner validBaudRates r.1 r.2 s = some out' ∧
      out = (out'.1, out'.2.1, ev1 ++ out'.2.2) := by
  unfold detectBaudrates at h
  simp only [hc, Bool.not_true, Bool.false_eq_true, if_false, Option.bind_eq_some,
    Option.map_eq_some'] at h
  obtain ⟨ev1, h1, r, h2, out', h3, h4⟩ := h
  exact ⟨ev1, r, out', h1, h2, h3, h4.symm⟩

theorem setCandidate_events (validBaudRates : List Int) (index : Int) (ev : List Event)
    (h : setCandidate validBaudRates index = some ev) :
    ∀ e ∈ ev, ∃ b, e = Event.setBaudRate b := by
  unfold setCandidate at h
  split_ifs at h
  · simp only [Option.map_eq_some'] at h
    obtain ⟨b, _, rfl⟩ := h
    simp
  · simp only [Option.some.injEq] at h
    subst h
    simp

theorem recordScore_effect (ABR : Int) (validBaudRates : List Int) (env : Env) (st : Statics)
    (r : Int × Statics) (h : recordScore ABR validBaudRates env st = some r) :
    r.2.lastParserErrorCount = env.parserErrors ∧ r.2.lastParserMsgsCount = env.parsedMsgs ∧
      r.2.index = st.index + 1 ∧ r.2.count = st.count := by
  unfold recordScore at h
  simp only [Option.map_eq_some'] at h
  obtain ⟨a, _, rfl⟩ := h
  simp

/-- A round of the detection emits `setBaudRate` calls only, and changes no member variable
other than `_configuring`. -/
theorem detectBaudrates_effect (ABR : Int) (validBaudRates : List Int) (env : Env)
    (st : Statics) (s : State) (out : Statics × State × List Event)
    (h : detectBaudrates ABR validBaudRates env st s = some out) :
    out.2.1 = { s with _configuring := out.2.1._configuring } ∧
      (∀ e ∈ out.2.2, ∃ b, e = Event.setBaudRate b) := by
  by_cases hc : s._configuring = true
  · obtain ⟨ev1, r, out', h1, _, h3, rfl⟩ :=
      detectBaudrates_eq_some ABR validBaudRates env st s hc out h
    have hcw := commitWinner_effect validBaudRates r.1 r.2 s out' h3
    refine ⟨hcw.2.2.2.2.2.1, ?_⟩
    intro e he
    rcases List.mem_append.mp he with he | he
    · exact setCandidate_events validBaudRates st.index ev1 h1 e he
    · exact hcw.2.2.2.2.2.2 e he
  · unfold detectBaudrates at h
    simp only [hc, Bool.not_false, if_true, Option.some.injEq] at h
    subst h
    simp

/-- C10: in a round run while configuring, (1) with `index = 0` nothing is recorded;
(2) with `index = k`, `k` not 0, the value recorded under `validBaudRates[k - 1]` is exactly
`(parserErrors - lastParserErrorCount) + (ABRTotalNumberOfMessages - (parsedMsgs -
lastParserMsgsCount))`, the two baselines being those left by the previous round; in both
cases the baselines become the current counters and `index` is incremented by one before
the termination check; (3) the map and the baselines that the whole round leaves are those
of this step, and `index` is still `k + 1` after a round that does not end the session;
(4) the round is defined whenever `0 ≤ index ≤ validBaudRates.length`. -/
theorem detectBaudrates_records_score (ABR : Int) (validBaudRates : List Int) (env : Env)
    (st : Statics) (s : State) (hc : s._configuring = true) :
    (st.index = 0 →
      recordScore ABR validBaudRates env st =
        some (-1, { st with lastParserErrorCount := env.parserErrors,
                            lastParserMsgsCount := env.parsedMsgs,
                            index := st.index + 1 })) ∧
    (∀ b, st.index ≠ 0 → readAt validBaudRates (st.index - 1) = some b →
      recordScore ABR validBaudRates env st =
        some ((env.parserErrors - st.lastParserErrorCount) +
                (ABR - (env.parsedMsgs - st.lastParserMsgsCount)),
              { st with baudRateToError := st.baudRateToError.assign b
                          ((env.parserErrors - st.lastParserErrorCount) +
                            (ABR - (env.parsedMsgs - st.lastParserMsgsCount))),
                        lastParserErrorCount := env.parserErrors,
                        lastParserMsgsCount := env.parsedMsgs,
                        index := st.index + 1 })) ∧
    (∀ out, detectBaudrates ABR validBaudRates env st s = some out →
      ∃ r, recordScore ABR validBaudRates env st = some r ∧
        out.1.baudRateToError = r.2.baudRateToError ∧
        out.1.lastParserErrorCount = env.parserErrors ∧
        out.1.lastParserMsgsCount = env.parsedMsgs ∧
        (out.2.1._configuring = true → out.1.index = st.index + 1)) ∧
    (0 ≤ st.index → st.index ≤ (validBaudRates.length : Int) →
      ∃ out, detectBaudrates ABR validBaudRates env st s = some out) := by
  refine ⟨?_, ?_, ?_, ?_⟩
  · intro h0
    simp [recordScore, h0]
  · intro b hk hb
    have hsc : env.parserErrors - st.lastParserErrorCount + ABR -
        (env.parsedMsgs - st.lastParserMsgsCount) =
        (env.parserErrors - st.lastParserErrorCount) +
          (ABR - (env.parsedMsgs - st.lastParserMsgsCount)) := by omega
    simp [recordScore, hk, hb, hsc]
  · intro out hout
    obtain ⟨ev1, r, out', _, h2, h3, rfl⟩ :=
      detectBaudrates_eq_some ABR validBaudRates env st s hc out hout
    have hcw := commitWinner_effect validBaudRates r.1 r.2 s out' h3
    have hrs := recordScore_effect ABR validBaudRates env st r h2
    refine ⟨r, h2, hcw.1, ?_, ?_, ?_⟩
    · exact hcw.2.1.trans hrs.1
    · exact hcw.2.2.1.trans hrs.2.1
    · intro hconf
      exact (hcw.2.2.2.2.1 hconf).trans hrs.2.2.1
  · exact detectBaudrates_isSome ABR validBaudRates env st s

/-- Witness of `detectBaudrates_records_score`: the second round over two candidates, with
3 parser errors and 18 answers to 20 probes since the first round, records the score 5
under the first candidate. -/
theorem detectBaudrates_records_score_witness :
    State.configuringStart._configuring = true ∧
      recordScore 20 [9600, 115200] ⟨0, 3, 18⟩
          { Statics.fresh 20 with index := 1 } =
        some (5, { count := 20, index := 2, baudRateToError := [(9600, 5)],
                   lastParserErrorCount := 3, lastParserMsgsCount := 18 }) :=
  ⟨rfl, (detectBaudrates_records_score 20 [9600, 115200] ⟨0, 3, 18⟩
    { Statics.fresh 20 with index := 1 } State.configuringStart rfl).2.1 9600
      (by decide) (by decide)⟩

/-! ## Message dispatch: proofs -/

theorem countRequests_append (a b : List Event) :
    countRequests (a ++ b) = countRequests a + countRequests b := by
  simp [countRequests, List.filter_append]

theorem requestNextProfile_events (s : State) :
    (requestNextProfile s).2 = [Event.deltaStep (selectStep s).2] := rfl

/-- The selection of the step changes at most the sweep direction. -/
theorem requestNextProfile_state (s : State) :
    ∃ b, (requestNextProfile s).1 = { s with _reverse_direction := b } := by
  rw [requestNextProfile_cases]
  split_ifs
  all_goals first | exact ⟨s._reverse_direction, rfl⟩ | exact ⟨!s._reverse_direction, rfl⟩

@[simp] theorem requestNextProfile_angle (s : State) :
    (requestNextProfile s).1._angle = s._angle := by
  obtain ⟨b, hb⟩ := requestNextProfile_state s; rw [hb]

@[simp] theorem requestNextProfile_sectorSize (s : State) :
    (requestNextProfile s).1._sectorSize = s._sectorSize := by
  obtain ⟨b, hb⟩ := requestNextProfile_state s; rw [hb]

@[simp] theorem requestNextProfile_angular_speed (s : State) :
    (requestNextProfile s).1._angular_speed = s._angular_speed := by
  obtain ⟨b, hb⟩ := requestNextProfile_state s; rw [hb]

@[simp] theorem requestNextProfile_gain_setting (s : State) :
    (requestNextProfile s).1._gain_setting = s._gain_setting := by
  obtain ⟨b, hb⟩ := requestNextProfile_state s; rw [hb]

@[simp] theorem requestNextProfile_transmit_duration (s : State) :
    (requestNextProfile s).1._transmit_duration = s._transmit_duration := by
  obtain ⟨b, hb⟩ := requestNextProfile_state s; rw [hb]

@[simp] theorem requestNextProfile_sample_period (s : State) :
    (requestNextProfile s).1._sample_period = s._sample_period := by
  obtain ⟨b, hb⟩ := requestNextProfile_state s; rw [hb]

@[simp] theorem requestNextProfile_transmit_frequency (s : State) :
    (requestNextProfile s).1._transmit_frequency = s._transmit_frequency := by
  obtain ⟨b, hb⟩ := requestNextProfile_state s; rw [hb]

@[simp] theorem requestNextProfile_num_points (s : State) :
    (requestNextProfile s).1._num_points = s._num_points := by
  obtain ⟨b, hb⟩ := requestNextProfile_state s; rw [hb]

@[simp] theorem requestNextProfile_data (s : State) :
    (requestNextProfile s).1._data = s._data := by
  obtain ⟨b, hb⟩ := requestNextProfile_state s; rw [hb]

@[simp] theorem requestNextProfile_ping_number (s : State) :
    (requestNextProfile s).1._ping_number = s._ping_number := by
  obtain ⟨b, hb⟩ := requestNextProfile_state s; rw [hb]

@[simp] theorem requestNextProfile_configuring (s : State) :
    (requestNextProfile s).1._configuring = s._configuring := by
  obtain ⟨b, hb⟩ := requestNextProfile_state s; rw [hb]

@[simp] theorem countRequests_requestNextProfile (s : State) :
    countRequests (requestNextProfile s).2 = 1 := rfl

/-- The closed form of the handling of a NACK of the transducer-control id. -/
theorem handleMessage_nack_transducer_eq (ABR : Int) (validBaudRates : List Int) (env : Env)
    (st : Statics) (s : State) (msg : ping_message)
    (hid : msg.message_id = MessageId.NACK) (hn : msg.nacked_id = MessageId.TRANSDUCER) :
    handleMessage ABR validBaudRates env st s msg =
      some (st, (requestNextProfile (revertedToDefaults (tracked env s msg))).1,
        [Event.messageFrequencyChanged] ++
          (requestNextProfile (revertedToDefaults (tracked env s msg))).2 ++
          [Event.timeoutProfileMessageStart, Event.gainSettingChanged,
           Event.transmitDurationChanged, Event.samplePeriodChanged,
           Event.transmitFrequencyChanged, Event.numberOfPointsChanged, Event.rangeChanged,
           Event.parsedMsgsUpdate]) := by
  simp [handleMessage, hid, hn, tracked, revertedToDefaults]

/-- C2 (as amended): handling a NACK of the transducer-control id sets the gain, the
transmit duration and the sample period to the firmware boot defaults (0, 32, 80), the
transmit frequency and the number of points to the defaults the viewer operates with (750
and 1200), and issues exactly one next-profile request. -/
theorem handleMessage_nack_transducer (ABR : Int) (validBaudRates : List Int) (env : Env)
    (st : Statics) (s : State) (msg : ping_message)
    (hid : msg.message_id = MessageId.NACK) (hn : msg.nacked_id = MessageId.TRANSDUCER) :
    ∃ out, handleMessage ABR validBaudRates env st s msg = some out ∧
      out.2.1._gain_setting = 0 ∧ out.2.1._transmit_duration = 32 ∧
      out.2.1._sample_period = 80 ∧ out.2.1._transmit_frequency = 750 ∧
      out.2.1._num_points = 1200 ∧ countRequests out.2.2 = 1 := by
  refine ⟨_, handleMessage_nack_transducer_eq ABR validBaudRates env st s msg hid hn, ?_⟩
  simp only [requestNextProfile_gain_setting, requestNextProfile_transmit_duration,
    requestNextProfile_sample_period, requestNextProfile_transmit_frequency,
    requestNextProfile_num_points, countRequests_append, countRequests_requestNextProfile]
  exact ⟨rfl, rfl, rfl, rfl, rfl, rfl⟩

/-- Witness of `handleMessage_nack_transducer`. -/
theorem handleMessage_nack_transducer_witness :
    nackTransducer.message_id = MessageId.NACK ∧
      nackTransducer.nacked_id = MessageId.TRANSDUCER ∧
      ∃ out, handleMessage 20 [9600, 115200] ⟨0, 0, 0⟩ (Statics.fresh 20)
          State.configuringStart nackTransducer = some out ∧
        out.2.1._gain_setting = 0 ∧ out.2.1._transmit_duration = 32 ∧
        out.2.1._sample_period = 80 ∧ out.2.1._transmit_frequency = 750 ∧
        out.2.1._num_points = 1200 ∧ countRequests out.2.2 = 1 :=
  ⟨rfl, rfl, handleMessage_nack_transducer 20 [9600, 115200] ⟨0, 0, 0⟩ (Statics.fresh 20)
    State.configuringStart nackTransducer rfl rfl⟩

/-- C2 (counterexample): after a NACK of the transducer-control id the transmit frequency
is 750 and the number of points 1200, not the firmware boot defaults 740 and 1024. -/
theorem handleMessage_nack_not_firmware_defaults :
    (handleMessage 20 [9600, 115200] ⟨0, 0, 0⟩ (Statics.fresh 20) State.configuringStart
        nackTransducer).map (fun out => (out.2.1._transmit_frequency, out.2.1._num_points))
      = some (750, 1200) ∧
    (750 : Nat) ≠ _firmwareDefaultTransmitFrequency ∧
    (1200 : Nat) ≠ _firmwareDefaultNumberOfSamples := by
  decide

theorem foldl_set_length (f : Nat → ℚ) (k : Nat) (l : List ℚ) :
    ((List.range k).foldl (fun acc i => acc.set i (f i)) l).length = l.length := by
  induction k with
  | zero => simp
  | succ k ih => simp [List.range_succ, List.foldl_append, ih]

theorem foldl_set_getElem? (f : Nat → ℚ) (k : Nat) (l : List ℚ) (i : Nat) :
    ((List.range k).foldl (fun acc j => acc.set j (f j)) l)[i]? =
      if i < k ∧ i < l.length then some (f i) else l[i]? := by
  induction k with
  | zero => simp
  | succ k ih =>
    simp only [List.range_succ, List.foldl_append, List.foldl_cons, List.foldl_nil]
    rw [List.getElem?_set, foldl_set_length, ih]
    by_cases hki : k = i
    · subst hki
      by_cases hl : k < l.length
      · simp [hl]
      · have hnone : l[k]? = none := List.getElem?_eq_none (by omega)
        simp [hl, hnone]
    · simp only [hki, if_false]
      by_cases h1 : i < k
      · have : i < k + 1 := by omega
        simp [h1, this]
      · have : ¬ i < k + 1 := by omega
        simp [h1, this]

theorem resize_length (data : List ℚ) (n : Nat) : (resize data n).length = n := by
  simp [resize]
  omega

/-- After the resize and the replace loop the buffer holds the normalized raw samples. -/
theorem normalizeInto_resize (raw : List (Fin 256)) (data : List ℚ) :
    normalizeInto raw (resize data raw.length) = raw.map (fun b => ((b.val : ℚ)) / 255) := by
  apply List.ext_getElem?
  intro i
  unfold normalizeInto
  rw [foldl_set_getElem?, resize_length]
  by_cases hi : i < raw.length
  · simp [hi, List.getD_eq_getElem?_getD]
  · simp only [hi, and_self, if_false]
    rw [List.getElem?_eq_none (by rw [resize_length]; omega),
      List.getElem?_eq_none (by simp; omega)]

theorem normalizeInto_length (raw : List (Fin 256)) (data : List ℚ) :
    (normalizeInto raw (resize data raw.length)).length = raw.length := by
  rw [normalizeInto_resize, List.length_map]

theorem countRequests_of_setBaudRate (ev : List Event)
    (h : ∀ e ∈ ev, ∃ b, e = Event.setBaudRate b) : countRequests ev = 0 := by
  unfold countRequests
  rw [List.length_eq_zero, List.filter_eq_nil_iff]
  intro e he
  obtain ⟨b, rfl⟩ := h e he
  simp

theorem count_probe_of_setBaudRate (ev : List Event)
    (h : ∀ e ∈ ev, ∃ b, e = Event.setBaudRate b) :
    ev.count Event.writeDeviceInformationRequest = 0 := by
  rw [List.count_eq_zero]
  intro hmem
  obtain ⟨b, hb⟩ := h _ hmem
  cases hb

/-- A call of `checkBaudrateProcess` writes one probe, requests no profile and changes no
member variable other than `_configuring`. -/
theorem checkBaudrateProcess_effect (ABR : Int) (validBaudRates : List Int) (env : Env)
    (st : Statics) (s : State) (out : Statics × State × List Event)
    (h : checkBaudrateProcess ABR validBaudRates env st s = some out) :
    out.2.1 = { s with _configuring := out.2.1._configuring } ∧
      countRequests out.2.2 = 0 ∧
      out.2.2.count Event.writeDeviceInformationRequest = 1 := by
  unfold checkBaudrateProcess at h
  split_ifs at h with hcount
  · simp only [Option.some.injEq] at h
    subst h
    exact ⟨rfl, rfl, rfl⟩
  · simp only [Option.map_eq_some'] at h
    obtain ⟨out', hdet, rfl⟩ := h
    have heff := detectBaudrates_effect ABR validBaudRates env _ s out' hdet
    refine ⟨heff.1, ?_, ?_⟩
    · simp only [countRequests_append, countRequests_of_setBaudRate _ heff.2]
      rfl
    · simp only [List.count_append, count_probe_of_setBaudRate _ heff.2]
      rfl

theorem checkBaudrateProcess_isSome (ABR : Int) (validBaudRates : List Int) (env : Env)
    (st : Statics) (s : State)
    (h : st.count ≠ 0 ∨ (0 ≤ st.index ∧ st.index ≤ (validBaudRates.length : Int))) :
    ∃ out, checkBaudrateProcess ABR validBaudRates env st s = some out := by
  unfold checkBaudrateProcess
  by_cases hcount : st.count ≠ 0
  · simp [hcount]
  · rcases h with h | ⟨h0, h1⟩
    · exact absurd h hcount
    · obtain ⟨out, hout⟩ := detectBaudrates_isSome ABR validBaudRates env
        { st with count := st.count - 1 } s h0 h1
      simp [hcount, hout]

/-- C8: handling a profile-data message with raw bytes `d` leaves `samples` of length
`data_length`, with `samples[i] = d[i] / 255` over the rationals for every position, every
sample in `[0, 1]`, and `angle` equal to the angle of the message. -/
theorem handleMessage_device_data_samples (ABR : Int) (validBaudRates : List Int) (env : Env)
    (st : Statics) (s : State) (msg : ping_message)
    (hid : msg.message_id = MessageId.DEVICE_DATA) :
    ∃ out, handleMessage ABR validBaudRates env st s msg = some out ∧
      out.2.1._data.length = msg.data_length ∧
      out.2.1._data = msg.data.map (fun b => (b.val : ℚ) / 255) ∧
      (∀ i (hi : i < msg.data.length), out.2.1._data[i]? = some ((msg.data[i].val : ℚ) / 255)) ∧
      (∀ x ∈ out.2.1._data, 0 ≤ x ∧ x ≤ 1) ∧
      out.2.1._angle = (msg.angle : Int) := by
  have hdata : ∀ out : Statics × State × List Event,
      handleMessage ABR validBaudRates env st s msg = some out →
      out.2.1._data = msg.data.map (fun b => (b.val : ℚ) / 255) ∧
        out.2.1._angle = (msg.angle : Int) := by
    intro out hout
    simp only [handleMessage, hid, ping_message.data_length, normalizeInto_length,
      Option.some.injEq] at hout
    subst hout
    simp only [requestNextProfile_data, requestNextProfile_angle]
    split_ifs <;> exact ⟨normalizeInto_resize _ _, rfl⟩
  have hsome : ∃ out, handleMessage ABR validBaudRates env st s msg = some out := by
    simp only [handleMessage, hid]
    exact ⟨_, rfl⟩
  obtain ⟨out, hout⟩ := hsome
  obtain ⟨hd, ha⟩ := hdata out hout
  refine ⟨out, hout, ?_, hd, ?_, ?_, ha⟩
  · rw [hd, List.length_map, ping_message.data_length]
  · intro i hi
    rw [hd, List.getElem?_map, List.getElem?_eq_getElem hi]
    rfl
  · intro x hx
    rw [hd, List.mem_map] at hx
    obtain ⟨b, _, rfl⟩ := hx
    have hb : (b.val : ℚ) ≤ 255 := by
      have : b.val ≤ 255 := by omega
      exact_mod_cast this
    have hb0 : (0 : ℚ) ≤ (b.val : ℚ) := by positivity
    constructor
    · positivity
    · rw [div_le_one (by norm_num)]
      exact hb

/-- Witness of `handleMessage_device_data_samples`: the raw bytes 0, 255, 128 are
normalized to 0, 1, 128/255. -/
theorem handleMessage_device_data_samples_witness :
    deviceDataThree.message_id = MessageId.DEVICE_DATA ∧
      ∃ out, handleMessage 20 [9600, 115200] ⟨0, 0, 0⟩ (Statics.fresh 20) State.acquiring
          deviceDataThree = some out ∧
        out.2.1._data = [0, 1, 128 / 255] ∧ out.2.1._angle = 30 := by
  obtain ⟨out, hout, _, hd, _, _, ha⟩ :=
    handleMessage_device_data_samples 20 [9600, 115200] ⟨0, 0, 0⟩ (Statics.fresh 20)
      State.acquiring deviceDataThree rfl
  refine ⟨rfl, out, hout, ?_, ha⟩
  have h255 : ((255 : Fin 256) : Nat) = 255 := rfl
  have h128 : ((128 : Fin 256) : Nat) = 128 := rfl
  have h0 : ((0 : Fin 256) : Nat) = 0 := rfl
  rw [hd]
  simp only [deviceDataThree, List.map_cons, List.map_nil, h255, h128, h0]
  norm_num

/-- C6: handling a profile-data message emits angle-changed exactly once; data-changed is
emitted at most once, and only if `sectorSize == 400`, or the new angle is at most
`sectorSize/2`, or it is at least `400 - sectorSize/2` (`/` being the division of C++); for
a profile with at least one sample it is emitted exactly when that condition holds. -/
theorem handleMessage_device_data_signals (ABR : Int) (validBaudRates : List Int) (env : Env)
    (st : Statics) (s : State) (msg : ping_message)
    (hid : msg.message_id = MessageId.DEVICE_DATA) :
    ∃ out, handleMessage ABR validBaudRates env st s msg = some out ∧
      out.2.2.count Event.angleChanged = 1 ∧
      out.2.2.count Event.dataChanged ≤ 1 ∧
      (Event.dataChanged ∈ out.2.2 →
        (s._sectorSize = 400 ∨ (msg.angle : Int) ≤ Int.tdiv s._sectorSize 2 ∨
          (msg.angle : Int) ≥ 400 - Int.tdiv s._sectorSize 2)) ∧
      (msg.data_length ≠ 0 →
        (Event.dataChanged ∈ out.2.2 ↔
          (s._sectorSize = 400 ∨ (msg.angle : Int) ≤ Int.tdiv s._sectorSize 2 ∨
            (msg.angle : Int) ≥ 400 - Int.tdiv s._sectorSize 2))) := by
  have hcondiff : ∀ s1 : State, s1._sectorSize = s._sectorSize → s1._angle = (msg.angle : Int) →
      (dataChangedCondition s1 = true ↔
        (s._sectorSize = 400 ∨ (msg.angle : Int) ≤ Int.tdiv s._sectorSize 2 ∨
          (msg.angle : Int) ≥ 400 - Int.tdiv s._sectorSize 2)) := by
    intro s1 h1 h2
    simp only [dataChangedCondition, State.angle, _angularResolutionGrad, h1, h2,
      Bool.or_eq_true, beq_iff_eq, decide_eq_true_eq]
    tauto
  simp only [handleMessage, hid, ping_message.data_length, normalizeInto_length]
  by_cases hd : msg.data.length = 0
  · refine ⟨_, rfl, ?_⟩
    simp [hd, requestNextProfile_events]
  · by_cases hcond : dataChangedCondition
        { s with messageFrequencies := (MessageId.DEVICE_DATA, env.elapsed) :: s.messageFrequencies,
                 _angle := (msg.angle : Int),
                 _data := normalizeInto msg.data (resize s._data msg.data.length),
                 _ping_number := s._ping_number + 1 } = true
    · have hc := (hcondiff _ (by rfl) (by rfl)).mp hcond
      refine ⟨_, rfl, ?_⟩
      simp only [hd, hcond, requestNextProfile_events, ne_eq, not_false_eq_true, if_true]
      refine ⟨?_, ?_, fun _ => hc, fun _ => ⟨fun _ => hc, fun _ => by simp⟩⟩
      · simp [List.count_cons]
      · simp [List.count_cons]
    · have hc := fun h => hcond ((hcondiff _ (by rfl) (by rfl)).mpr h)
      refine ⟨_, rfl, ?_⟩
      simp only [hd, hcond, requestNextProfile_events, ne_eq, not_false_eq_true, if_true]
      have hnot : Event.dataChanged ∉
          [Event.messageFrequencyChanged] ++ [Event.angleChanged] ++
            [Event.deltaStep (selectStep
              { s with messageFrequencies :=
                          (MessageId.DEVICE_DATA, env.elapsed) :: s.messageFrequencies,
                       _angle := (msg.angle : Int),
                       _data := normalizeInto msg.data (resize s._data msg.data.length),
                       _ping_number := s._ping_number + 1 }).2] ++
            [Event.timeoutProfileMessageStart, Event.parsedMsgsUpdate] := by simp
      refine ⟨?_, ?_, fun h => absurd h hnot, fun _ => ⟨fun h => absurd h hnot,
        fun h => absurd h hc⟩⟩
      · simp [List.count_cons]
      · simp [List.count_cons]

/-- Witness of `handleMessage_device_data_signals`: with the full circle as sector a
profile of three samples emits both signals. -/
theorem handleMessage_device_data_signals_witness :
    deviceDataThree.message_id = MessageId.DEVICE_DATA ∧
      ∃ out, handleMessage 20 [9600, 115200] ⟨0, 0, 0⟩ (Statics.fresh 20) State.acquiring
          deviceDataThree = some out ∧
        out.2.2.count Event.angleChanged = 1 ∧ Event.dataChanged ∈ out.2.2 := by
  obtain ⟨out, hout, hangle, _, _, hiff⟩ :=
    handleMessage_device_data_signals 20 [9600, 115200] ⟨0, 0, 0⟩ (Statics.fresh 20)
      State.acquiring deviceDataThree rfl
  exact ⟨rfl, out, hout, hangle, (hiff (by decide)).mpr (Or.inl rfl)⟩

theorem handleMessage_information_configuring (ABR : Int) (validBaudRates : List Int)
    (env : Env) (st : Statics) (s : State) (msg : ping_message)
    (hid : msg.message_id = MessageId.DEVICE_INFORMATION) (hc : s._configuring = true) :
    handleMessage ABR validBaudRates env st s msg =
      (checkBaudrateProcess ABR validBaudRates env st (tracked env s msg)).map
        (fun out => (out.1, out.2.1,
          [Event.messageFrequencyChanged, Event.baudrateConfigurationTimerStart] ++ out.2.2)) := by
  simp [handleMessage, hid, hc, tracked]

theorem handleMessage_information_acquiring (ABR : Int) (validBaudRates : List Int)
    (env : Env) (st : Statics) (s : State) (msg : ping_message)
    (hid : msg.message_id = MessageId.DEVICE_INFORMATION) (hc : s._configuring = false) :
    handleMessage ABR validBaudRates env st s msg =
      some (st, (requestNextProfile (tracked env s msg)).1,
        [Event.messageFrequencyChanged, Event.baudrateConfigurationTimerStop,
          Event.timeoutProfileMessageStart] ++ (requestNextProfile (tracked env s msg)).2) := by
  simp [handleMessage, hid, hc, tracked]

theorem handleMessage_nack_other (ABR : Int) (validBaudRates : List Int)
    (env : Env) (st : Statics) (s : State) (msg : ping_message)
    (hid : msg.message_id = MessageId.NACK) (hn : msg.nacked_id ≠ MessageId.TRANSDUCER) :
    handleMessage ABR validBaudRates env st s msg =
      some (st, tracked env s msg, [Event.messageFrequencyChanged, Event.parsedMsgsUpdate]) := by
  simp [handleMessage, hid, hn, tracked]

theorem handleMessage_unhandled (ABR : Int) (validBaudRates : List Int)
    (env : Env) (st : Statics) (s : State) (msg : ping_message)
    (h1 : msg.message_id ≠ MessageId.DEVICE_INFORMATION)
    (h2 : msg.message_id ≠ MessageId.DEVICE_DATA) (h3 : msg.message_id ≠ MessageId.NACK) :
    handleMessage ABR validBaudRates env st s msg =
      some (st, tracked env s msg, [Event.messageFrequencyChanged, Event.parsedMsgsUpdate]) := by
  unfold handleMessage tracked
  split
  · rename_i h; exact absurd h h1
  · rename_i h; exact absurd h h2
  · rename_i h; exact absurd h h3
  · rfl

/-- The ping counter after any message other than a profile-data message. -/
theorem handleMessage_other_ping_number (ABR : Int) (validBaudRates : List Int) (env : Env)
    (st : Statics) (s : State) (msg : ping_message)
    (hid : msg.message_id ≠ MessageId.DEVICE_DATA) (out : Statics × State × List Event)
    (h : handleMessage ABR validBaudRates env st s msg = some out) :
    out.2.1._ping_number = s._ping_number := by
  by_cases h1 : msg.message_id = MessageId.DEVICE_INFORMATION
  · by_cases hc : s._configuring = true
    · rw [handleMessage_information_configuring ABR validBaudRates env st s msg h1 hc,
        Option.map_eq_some'] at h
      obtain ⟨out', hcb, rfl⟩ := h
      have heff := checkBaudrateProcess_effect ABR validBaudRates env st _ out' hcb
      simp only
      rw [heff.1]
      rfl
    · rw [handleMessage_information_acquiring ABR validBaudRates env st s msg h1
        (by simpa using hc), Option.some.injEq] at h
      subst h
      simp [tracked]
  · by_cases h3 : msg.message_id = MessageId.NACK
    · by_cases hn : msg.nacked_id = MessageId.TRANSDUCER
      · rw [handleMessage_nack_transducer_eq ABR validBaudRates env st s msg h3 hn,
          Option.some.injEq] at h
        subst h
        simp [tracked, revertedToDefaults]
      · rw [handleMessage_nack_other ABR validBaudRates env st s msg h3 hn,
          Option.some.injEq] at h
        subst h
        rfl
    · rw [handleMessage_unhandled ABR validBaudRates env st s msg h1 hid h3,
        Option.some.injEq] at h
      subst h
      rfl

/-- C7 (as amended): handling a profile-data message that carries at least one sample
increases `pingNumber` by exactly one, and one that carries no sample leaves it unchanged;
handling a message of any other id leaves `pingNumber` unchanged; so `pingNumber` never
decreases. -/
theorem handleMessage_ping_number (ABR : Int) (validBaudRates : List Int) (env : Env)
    (st : Statics) (s : State) (msg : ping_message) :
    (msg.message_id = MessageId.DEVICE_DATA →
      ∃ out, handleMessage ABR validBaudRates env st s msg = some out ∧
        out.2.1._ping_number = s._ping_number + (if msg.data_length = 0 then 0 else 1)) ∧
    (msg.message_id ≠ MessageId.DEVICE_DATA →
      ∀ out, handleMessage ABR validBaudRates env st s msg = some out →
        out.2.1._ping_number = s._ping_number) ∧
    (∀ out, handleMessage ABR validBaudRates env st s msg = some out →
      s._ping_number ≤ out.2.1._ping_number) := by
  have hdata : msg.message_id = MessageId.DEVICE_DATA →
      ∃ out, handleMessage ABR validBaudRates env st s msg = some out ∧
        out.2.1._ping_number = s._ping_number + (if msg.data_length = 0 then 0 else 1) := by
    intro hid
    simp only [handleMessage, hid, ping_message.data_length, normalizeInto_length]
    by_cases hd : msg.data.length = 0
    · simp [hd]
    · by_cases hcond : dataChangedCondition
          { s with messageFrequencies :=
                      (MessageId.DEVICE_DATA, env.elapsed) :: s.messageFrequencies,
                   _angle := (msg.angle : Int),
                   _data := normalizeInto msg.data (resize s._data msg.data.length),
                   _ping_number := s._ping_number + 1 } = true
      · simp [hd, hcond]
      · simp [hd, hcond]
  refine ⟨hdata, handleMessage_other_ping_number ABR validBaudRates env st s msg, ?_⟩
  intro out hout
  by_cases hid : msg.message_id = MessageId.DEVICE_DATA
  · obtain ⟨out', hout', hping⟩ := hdata hid
    rw [hout] at hout'
    cases hout'
    omega
  · exact le_of_eq (handleMessage_other_ping_number ABR validBaudRates env st s msg hid out
      hout).symm

/-- Witness of `handleMessage_ping_number`: a profile of three samples is counted. -/
theorem handleMessage_ping_number_witness :
    deviceDataThree.message_id = MessageId.DEVICE_DATA ∧
      ∃ out, handleMessage 20 [9600, 115200] ⟨0, 0, 0⟩ (Statics.fresh 20) State.acquiring
          deviceDataThree = some out ∧
        out.2.1._ping_number = State.acquiring._ping_number + 1 :=
  ⟨rfl, (handleMessage_ping_number 20 [9600, 115200] ⟨0, 0, 0⟩ (Statics.fresh 20)
    State.acquiring deviceDataThree).1 rfl⟩

/-- C7 (counterexample): a profile-data message with `data_length = 0` leaves `pingNumber`
at 0. -/
theorem handleMessage_empty_profile_not_counted :
    deviceDataEmpty.message_id = MessageId.DEVICE_DATA ∧
      deviceDataEmpty.data_length = 0 ∧
      State.acquiring._ping_number = 0 ∧
      (handleMessage 20 [9600, 115200] ⟨0, 0, 0⟩ (Statics.fresh 20) State.acquiring
          deviceDataEmpty).map (fun out => out.2.1._ping_number) = some 0 := by
  decide

/-! ## Detection sessions: proofs -/

theorem lastSetBaudRate_append (a b : List Event) (c : Int)
    (h : lastSetBaudRate b = some c) : lastSetBaudRate (a ++ b) = some c := by
  induction a with
  | nil => simpa using h
  | cons e rest ih => simp [lastSetBaudRate, ih]

theorem runSession_inactive (ABR : Int) (validBaudRates : List Int) (readings : Nat → Env)
    (fuel r : Nat) (st : Statics) (s : State) (hc : s._configuring = false) :
    runSession ABR validBaudRates readings fuel r st s = some (st, s, []) := by
  cases fuel <;> simp [runSession, hc]

theorem commitWinner_end (validBaudRates : List Int) (lastCounter : Int) (st : Statics)
    (s : State) (b : Int) (hend : st.index = (validBaudRates.length : Int))
    (hb : readAt validBaudRates ((validBaudRates.length : Int) - 1) = some b) :
    commitWinner validBaudRates lastCounter st s =
      some ({ st with index := (validBaudRates.length : Int) - 1 },
        { s with _configuring := false }, [Event.setBaudRate b]) := by
  simp [commitWinner, hend, hb]

theorem commitWinner_early (validBaudRates : List Int) (lastCounter : Int) (st : Statics)
    (s : State) (j b : Int) (hend : st.index ≠ (validBaudRates.length : Int))
    (hlc : lastCounter = 0) (hscan : scanWinner st.baudRateToError validBaudRates 0 = some j)
    (hb : readAt validBaudRates j = some b) :
    commitWinner validBaudRates lastCounter st s =
      some ({ st with index := j }, { s with _configuring := false },
        [Event.setBaudRate b]) := by
  simp [commitWinner, hend, hlc, hscan, hb]

theorem commitWinner_continue (validBaudRates : List Int) (lastCounter : Int) (st : Statics)
    (s : State) (hend : st.index ≠ (validBaudRates.length : Int)) (hlc : lastCounter ≠ 0) :
    commitWinner validBaudRates lastCounter st s = some (st, s, []) := by
  simp [commitWinner, hend, hlc]

/-- The first round of a session: nothing is recorded. -/
theorem detectBaudrates_first_round (ABR : Int) (validBaudRates : List Int) (env : Env)
    (st : Statics) (s : State) (c0 : Int) (hc : s._configuring = true) (hidx : st.index = 0)
    (h0 : validBaudRates[0]? = some c0) :
    detectBaudrates ABR validBaudRates env st s =
      (commitWinner validBaudRates (-1)
        { st with lastParserErrorCount := env.parserErrors,
                  lastParserMsgsCount := env.parsedMsgs, index := 1 } s).map
        (fun out => (out.1, out.2.1, [Event.setBaudRate c0] ++ out.2.2)) := by
  have hlen : (0 : Int) < (validBaudRates.length : Int) := by
    have : 0 < validBaudRates.length := by
      by_contra hcon
      rw [List.getElem?_eq_none (by omega)] at h0
      cases h0
    omega
  have hread : readAt validBaudRates 0 = some c0 := by
    have := readAt_natCast validBaudRates 0
    simpa [h0] using this
  simp [detectBaudrates, hc, setCandidate, recordScore, hidx, hlen, hread]

/-- A later round: the score of the previous candidate is recorded. -/
theorem detectBaudrates_later_round (ABR : Int) (validBaudRates : List Int) (env : Env)
    (st : Statics) (s : State) (k : Nat) (b c : Int) (hc : s._configuring = true)
    (hidx : st.index = ((k + 1 : Nat) : Int))
    (hb : validBaudRates[k]? = some b) (hck : validBaudRates[k + 1]? = some c) :
    detectBaudrates ABR validBaudRates env st s =
      (commitWinner validBaudRates
        (env.parserErrors - st.lastParserErrorCount + ABR -
          (env.parsedMsgs - st.lastParserMsgsCount))
        { st with baudRateToError := st.baudRateToError.assign b
                    (env.parserErrors - st.lastParserErrorCount + ABR -
                      (env.parsedMsgs - st.lastParserMsgsCount)),
                  lastParserErrorCount := env.parserErrors,
                  lastParserMsgsCount := env.parsedMsgs,
                  index := ((k + 2 : Nat) : Int) } s).map
        (fun out => (out.1, out.2.1, [Event.setBaudRate c] ++ out.2.2)) := by
  have hlen : k + 1 < validBaudRates.length := by
    by_contra hcon
    rw [List.getElem?_eq_none (by omega)] at hck
    cases hck
  have hlt : ((k + 1 : Nat) : Int) < (validBaudRates.length : Int) := by omega
  have hread : readAt validBaudRates ((k + 1 : Nat) : Int) = some c := by
    rw [readAt_natCast, hck]
  have hprev : readAt validBaudRates (((k + 1 : Nat) : Int) - 1) = some b := by
    have : (((k + 1 : Nat) : Int) - 1) = ((k : Nat) : Int) := by push_cast; omega
    rw [this, readAt_natCast, hb]
  have hne : ((k + 1 : Nat) : Int) ≠ 0 := by omega
  have hidx2 : ((k + 1 : Nat) : Int) + 1 = ((k + 2 : Nat) : Int) := by push_cast; omega
  simp only [detectBaudrates, hc, setCandidate, recordScore, hidx, hlt, hread, hprev, hne,
    hidx2, Bool.not_true, Bool.false_eq_true, if_false, if_true, ne_eq, not_false_eq_true,
    Option.map_some', Option.some_bind]

/-- From round `k + 1` on: if the scores of the candidates before `k` are recorded and none
of them is 0, the session ends within the remaining rounds and commits by the rule. -/
theorem runSession_from_round (ABR : Int) (validBaudRates : List Int) (readings : Nat → Env)
    (hnd : validBaudRates.Nodup) :
    ∀ (fuel k : Nat) (st : Statics) (s : State),
      k + 1 < validBaudRates.length → validBaudRates.length ≤ fuel + (k + 1) →
      s._configuring = true → st.index = ((k + 1 : Nat) : Int) →
      st.lastParserErrorCount = (readings k).parserErrors →
      st.lastParserMsgsCount = (readings k).parsedMsgs →
      (∀ j c, j < k → validBaudRates[j]? = some c →
        st.baudRateToError.value c = scoreOf ABR readings j) →
      (∀ j, j < k → scoreOf ABR readings j ≠ 0) →
      ∃ fin c, runSession ABR validBaudRates readings fuel (k + 1) st s = some fin ∧
        fin.2.1._configuring = false ∧ lastSetBaudRate fin.2.2 = some c ∧
        CommitRule ABR validBaudRates readings c
  | 0, k, st, s, hk, hfuel, _, _, _, _, _, _ => by omega
  | fuel + 1, k, st, s, hk, hfuel, hc, hidx, hpe, hpm, hmap, hnz => by
    have hbk : validBaudRates[k]? = some validBaudRates[k] := List.getElem?_eq_getElem (by omega)
    have hck : validBaudRates[k + 1]? = some validBaudRates[k + 1] :=
      List.getElem?_eq_getElem (by omega)
    have hscore : (readings (k + 1)).parserErrors - st.lastParserErrorCount + ABR -
        ((readings (k + 1)).parsedMsgs - st.lastParserMsgsCount) = scoreOf ABR readings k := by
      rw [hpe, hpm]; rfl
    have hdet := detectBaudrates_later_round ABR validBaudRates (readings (k + 1)) st s k
      validBaudRates[k] validBaudRates[k + 1] hc hidx hbk hck
    rw [hscore] at hdet
    -- the map after the score of candidate `k` is recorded
    have hmap' : ∀ j c, j < k + 1 → validBaudRates[j]? = some c →
        (st.baudRateToError.assign validBaudRates[k] (scoreOf ABR readings k)).value c
          = scoreOf ABR readings j := by
      intro j c hj hjc
      by_cases hjk : j = k
      · subst hjk
        rw [hbk] at hjc
        cases hjc
        exact QMap.value_assign_same _ _ _
      · have hne : c ≠ validBaudRates[k] := by
          intro hcon
          apply hjk
          exact List.getElem?_inj (by omega) hnd (by rw [hjc, hbk, hcon])
        rw [QMap.value_assign_other _ _ _ _ hne]
        exact hmap j c (by omega) hjc
    simp only [runSession, hc, if_true, hdet]
    by_cases hend : k + 2 = validBaudRates.length
    · -- the list is exhausted: the last candidate is committed
      have hlast : readAt validBaudRates ((validBaudRates.length : Int) - 1)
          = some validBaudRates[k + 1] := by
        have : ((validBaudRates.length : Int) - 1) = ((k + 1 : Nat) : Int) := by
          rw [← hend]; push_cast; omega
        rw [this, readAt_natCast, hck]
      rw [commitWinner_end validBaudRates _ _ s validBaudRates[k + 1]
        (by simp only; rw [← hend]) hlast]
      simp only [Option.map_some', Option.some_bind]
      rw [runSession_inactive ABR validBaudRates readings fuel (k + 1 + 1) _ _ rfl]
      refine ⟨_, validBaudRates[k + 1], rfl, rfl, by simp [lastSetBaudRate], ?_, ?_⟩
      · intro j b hj _ hzero _
        exact absurd hzero (hnz j (by omega))
      · intro _
        have : validBaudRates.length - 1 = k + 1 := by omega
        rw [this, hck]
    · have hne : (((k + 2 : Nat) : Int)) ≠ (validBaudRates.length : Int) := by omega
      by_cases hzero : scoreOf ABR readings k = 0
      · -- the score just recorded is 0: the scan stops at candidate `k`
        have hscan := scanWinner_first_zero
          (st.baudRateToError.assign validBaudRates[k] (scoreOf ABR readings k))
          validBaudRates 0 k validBaudRates[k] hbk
          (by rw [QMap.value_assign_same]; exact hzero)
          (fun i c hi hic => by rw [hmap' i c (by omega) hic]; exact hnz i hi)
        have hread : readAt validBaudRates (0 + (k : Int)) = some validBaudRates[k] := by
          rw [zero_add, readAt_natCast, hbk]
        rw [commitWinner_early validBaudRates _ _ s (0 + (k : Int)) validBaudRates[k]
          (by simpa using hne) hzero hscan hread]
        simp only [Option.map_some', Option.some_bind]
        rw [runSession_inactive ABR validBaudRates readings fuel (k + 1 + 1) _ _ rfl]
        refine ⟨_, validBaudRates[k], rfl, rfl, by simp [lastSetBaudRate], ?_, ?_⟩
        · intro j b hj hjb hjz hbefore
          have hjk : j = k := by
            rcases Nat.lt_trichotomy j k with hlt | heq | hgt
            · exact absurd hjz (hnz j hlt)
            · exact heq
            · exact absurd hzero (hbefore k hgt)
          subst hjk
          rw [hbk] at hjb
          cases hjb
          rfl
        · intro hall
          exact absurd hzero (hall k (by omega))
      · -- the score just recorded is not 0: the session goes on
        rw [commitWinner_continue validBaudRates _ _ s (by simpa using hne) hzero]
        simp only [Option.map_some', Option.some_bind]
        obtain ⟨fin, c, hfin, hconf, hlastc, hrule⟩ :=
          runSession_from_round ABR validBaudRates readings hnd fuel (k + 1)
            { st with baudRateToError :=
                        st.baudRateToError.assign validBaudRates[k] (scoreOf ABR readings k),
                      lastParserErrorCount := (readings (k + 1)).parserErrors,
                      lastParserMsgsCount := (readings (k + 1)).parsedMsgs,
                      index := ((k + 2 : Nat) : Int) } s
            (by omega) (by omega) hc rfl rfl rfl hmap'
            (fun j hj => by
              by_cases hjk : j = k
              · subst hjk; exact hzero
              · exact hnz j (by omega))
        rw [hfin]
        refine ⟨_, c, rfl, hconf, ?_, hrule⟩
        exact lastSetBaudRate_append _ _ _ hlastc

/-- A session that starts with `index = 0` on a list of distinct candidates that is not
empty ends within `validBaudRates.length` rounds and commits by the rule. -/
theorem runSession_from_start (ABR : Int) (validBaudRates : List Int) (readings : Nat → Env)
    (hnd : validBaudRates.Nodup) (hne : validBaudRates ≠ []) (fuel : Nat)
    (hfuel : validBaudRates.length ≤ fuel) (st : Statics) (s : State)
    (hc : s._configuring = true) (hidx : st.index = 0) :
    ∃ fin c, runSession ABR validBaudRates readings fuel 0 st s = some fin ∧
      fin.2.1._configuring = false ∧ lastSetBaudRate fin.2.2 = some c ∧
      CommitRule ABR validBaudRates readings c := by
  have hlen : 0 < validBaudRates.length := List.length_pos.mpr hne
  obtain ⟨fuel, rfl⟩ : ∃ f, fuel = f + 1 := ⟨fuel - 1, by omega⟩
  have h0 : validBaudRates[0]? = some validBaudRates[0] := List.getElem?_eq_getElem hlen
  have hdet := detectBaudrates_first_round ABR validBaudRates (readings 0) st s
    validBaudRates[0] hc hidx h0
  simp only [runSession, hc, if_true, hdet]
  by_cases hend : validBaudRates.length = 1
  · have hlast : readAt validBaudRates ((validBaudRates.length : Int) - 1)
        = some validBaudRates[0] := by
      have : ((validBaudRates.length : Int) - 1) = ((0 : Nat) : Int) := by
        rw [hend]; rfl
      rw [this, readAt_natCast, h0]
    rw [commitWinner_end validBaudRates _ _ s validBaudRates[0]
      (by simp only; rw [hend]; rfl) hlast]
    simp only [Option.map_some', Option.some_bind]
    rw [runSession_inactive ABR validBaudRates readings fuel (0 + 1) _ _ rfl]
    refine ⟨_, validBaudRates[0], rfl, rfl, by simp [lastSetBaudRate], ?_, ?_⟩
    · intro j b hj
      omega
    · intro _
      have : validBaudRates.length - 1 = 0 := by omega
      rw [this, h0]
  · have hne1 : (1 : Int) ≠ (validBaudRates.length : Int) := by omega
    rw [commitWinner_continue validBaudRates _ _ s (by simpa using hne1) (by decide)]
    simp only [Option.map_some', Option.some_bind]
    obtain ⟨fin, c, hfin, hconf, hlastc, hrule⟩ :=
      runSession_from_round ABR validBaudRates readings hnd fuel 0
        { st with lastParserErrorCount := (readings 0).parserErrors,
                  lastParserMsgsCount := (readings 0).parsedMsgs, index := 1 } s
        (by omega) (by omega) hc rfl rfl rfl
        (fun j c hj _ => absurd hj (Nat.not_lt_zero j))
        (fun j hj => absurd hj (Nat.not_lt_zero j))
    rw [hfin]
    refine ⟨_, c, rfl, hconf, ?_, hrule⟩
    exact lastSetBaudRate_append _ _ _ hlastc

/-- Any list of scores is realised by counter readings. -/
theorem scoreOf_readingsOfScores (ABR : Int) (scores : List Int) (j : Nat) (x : Int)
    (h : scores[j]? = some x) : scoreOf ABR (readingsOfScores ABR scores) j = x := by
  have hj : j < scores.length := by
    by_contra hcon
    rw [List.getElem?_eq_none (by omega)] at h
    cases h
  have hx : scores[j] = x := by
    rw [List.getElem?_eq_getElem hj] at h
    exact Option.some.inj h
  have htake : scores.take (j + 1) = scores.take j ++ [x] := by
    rw [List.take_succ, h]
    rfl
  simp only [scoreOf, readingsOfScores, htake, List.map_append, List.sum_append, List.map_cons,
    List.map_nil, List.sum_cons, List.sum_nil]
  omega

/-- C1 (as amended): for every list of distinct candidates that is not empty and all counter
readings (hence every score per candidate), a session started from fresh state and run
round by round ends within `validBaudRates.length` rounds with `configuring` false and
commits one rate `c`: the lowest-indexed candidate whose score is 0 if that candidate has at
least two candidates after it (position below `length - 2`), and the last candidate if no
candidate at a position below `length - 2` has score 0. -/
theorem detectBaudrates_session_commit (ABR : Int) (validBaudRates : List Int)
    (readings : Nat → Env) (fuel : Nat) (s : State) (hnd : validBaudRates.Nodup)
    (hne : validBaudRates ≠ []) (hfuel : validBaudRates.length ≤ fuel)
    (hc : s._configuring = true) :
    ∃ c, committedRate ABR validBaudRates readings fuel (Statics.fresh ABR) s = some c ∧
      (∀ j b, j + 2 < validBaudRates.length → validBaudRates[j]? = some b →
        scoreOf ABR readings j = 0 → (∀ i, i < j → scoreOf ABR readings i ≠ 0) → c = b) ∧
      ((∀ j, j + 2 < validBaudRates.length → scoreOf ABR readings j ≠ 0) →
        validBaudRates[validBaudRates.length - 1]? = some c) := by
  obtain ⟨fin, c, hfin, hconf, hlastc, hrule⟩ :=
    runSession_from_start ABR validBaudRates readings hnd hne fuel hfuel (Statics.fresh ABR) s
      hc rfl
  refine ⟨c, ?_, hrule.1, hrule.2⟩
  simp [committedRate, hfin, hconf, hlastc]

/-- Witness of `detectBaudrates_session_commit`: the candidates 9600, 19200, 38400, 57600,
115200 with the scores 3, 0, 0, 2, 1 commit 19200. -/
theorem detectBaudrates_session_commit_witness :
    [9600, 19200, 38400, 57600, 115200].Nodup ∧
      ([9600, 19200, 38400, 57600, 115200] : List Int) ≠ [] ∧
      State.configuringStart._configuring = true ∧
      committedRate 20 [9600, 19200, 38400, 57600, 115200]
        (readingsOfScores 20 [3, 0, 0, 2, 1]) 5 (Statics.fresh 20) State.configuringStart
        = some 19200 := by
  obtain ⟨c, hcommit, hfirst, _⟩ :=
    detectBaudrates_session_commit 20 [9600, 19200, 38400, 57600, 115200]
      (readingsOfScores 20 [3, 0, 0, 2, 1]) 5 State.configuringStart (by decide) (by decide)
      (by decide) rfl
  have hc : c = 19200 :=
    hfirst 1 19200 (by decide) (by decide) (by decide)
      (fun i hi => by
        have : i = 0 := by omega
        subst this
        decide)
  rw [hc] at hcommit
  exact ⟨by decide, by decide, rfl, hcommit⟩

/-- C1 (counterexample): with the candidates 9600, 19200, 38400 and the scores 1, 0, 5 the
candidate 19200 comes before the last one and is the lowest-indexed candidate with score 0,
and the session commits 38400. -/
theorem detectBaudrates_session_commits_last_despite_zero :
    [9600, 19200, 38400].Nodup ∧
      scoreOf 20 (readingsOfScores 20 [1, 0, 5]) 0 = 1 ∧
      scoreOf 20 (readingsOfScores 20 [1, 0, 5]) 1 = 0 ∧
      committedRate 20 [9600, 19200, 38400] (readingsOfScores 20 [1, 0, 5]) 3
        (Statics.fresh 20) State.configuringStart = some 38400 := by
  decide

/-! ## The data-changed throttle and the sector test -/

/-- C15: for every angle in [0, 400) and every sector size in [0, 400], the condition under
which `handleMessage` emits data-changed (`sectorSize == 400`, or `angle >= 400 -
sectorSize/2`, or `angle <= sectorSize/2`) holds exactly when `isInside(0)` holds at that
angle, and exactly when its last two disjuncts hold: the disjunct `sectorSize == 400` is
redundant. -/
theorem dataChangedCondition_iff_isInside_zero (s : State) (ha : 0 ≤ s._angle)
    (ha' : s._angle < 400) (hW : 0 ≤ s._sectorSize) (hW' : s._sectorSize ≤ 400) :
    dataChangedCondition s = isInside s 0 ∧
      (dataChangedCondition s = true ↔
        (s._angle ≥ 400 - s._sectorSize / 2 ∨ s._angle ≤ s._sectorSize / 2)) := by
  have hcond : dataChangedCondition s = true ↔
      (s._sectorSize = 400 ∨ s._angle ≥ 400 - s._sectorSize / 2 ∨
        s._angle ≤ s._sectorSize / 2) := by
    simp only [dataChangedCondition, State.angle, _angularResolutionGrad,
      tdiv_two_of_nonneg _ hW, Bool.or_eq_true, beq_iff_eq, decide_eq_true_eq, or_assoc]
  have hin : isInside s 0 = true ↔
      (s._angle ≥ 400 - s._sectorSize / 2 ∨ s._angle ≤ s._sectorSize / 2) := by
    rw [isInside_eq s 0 hW (by omega), wrap32_of_inRange _ (by omega) (by omega),
      tmod_400_of_nonneg _ (by omega)]
    split_ifs <;> constructor <;> intro h <;> omega
  have hred : dataChangedCondition s = true ↔
      (s._angle ≥ 400 - s._sectorSize / 2 ∨ s._angle ≤ s._sectorSize / 2) := by
    rw [hcond]
    constructor
    · rintro (h | h)
      · omega
      · exact h
    · exact Or.inr
  refine ⟨?_, hred⟩
  rw [Bool.eq_iff_iff, hred, hin]

/-- Witness of `dataChangedCondition_iff_isInside_zero`: bearing 380 with a sector of width
100 is inside for both tests. -/
theorem dataChangedCondition_iff_isInside_zero_witness :
    (0 : Int) ≤ 380 ∧ (380 : Int) < 400 ∧ (0 : Int) ≤ 100 ∧ (100 : Int) ≤ 400 ∧
      dataChangedCondition { State.acquiring with _angle := 380, _sectorSize := 100 } =
        isInside { State.acquiring with _angle := 380, _sectorSize := 100 } 0 :=
  ⟨by decide, by decide, by decide, by decide,
    (dataChangedCondition_iff_isInside_zero
      { State.acquiring with _angle := 380, _sectorSize := 100 }
      (by decide) (by decide) (by decide) (by decide)).1⟩

/-! ## Termination of a session and bounds of the list reads -/

/-- A read of the list is defined exactly at the positions of the list. -/
theorem readAt_bounds (l : List Int) (i b : Int) (h : readAt l i = some b) :
    0 ≤ i ∧ i < (l.length : Int) := by
  unfold readAt at h
  split_ifs at h with h0
  refine ⟨h0, ?_⟩
  by_contra hcon
  rw [List.get?_eq_none.mpr (by omega)] at h
  cases h

theorem readAt_eq_none (l : List Int) (i : Int) (h : i < 0 ∨ (l.length : Int) ≤ i) :
    readAt l i = none := by
  cases hr : readAt l i with
  | none => rfl
  | some b =>
    have := readAt_bounds l i b hr
    omega

/-- The outcome of the termination check: either the session goes on, with `index` still
below the length of the list, or it ends with one `setBaudRate` call whose argument is read
at the final `index`, a position of the list. -/
theorem commitWinner_outcome (validBaudRates : List Int) (lastCounter : Int) (st : Statics)
    (s : State) (out : Statics × State × List Event) (hc : s._configuring = true)
    (hle : st.index ≤ (validBaudRates.length : Int))
    (h : commitWinner validBaudRates lastCounter st s = some out) :
    (out.2.1._configuring = true ∧ out.1.index = st.index ∧
        st.index < (validBaudRates.length : Int) ∧ out.2.2 = []) ∨
      (out.2.1._configuring = false ∧
        ∃ b, readAt validBaudRates out.1.index = some b ∧ out.2.2 = [Event.setBaudRate b]) := by
  unfold commitWinner at h
  split_ifs at h with hterm hend
  · simp only [Option.bind_eq_some, Option.map_eq_some'] at h
    obtain ⟨i, _, b, hb, rfl⟩ := h
    exact Or.inr ⟨rfl, b, hb, rfl⟩
  · simp only [Option.bind_eq_some, Option.map_eq_some'] at h
    obtain ⟨i, _, b, hb, rfl⟩ := h
    exact Or.inr ⟨rfl, b, hb, rfl⟩
  · simp only [Option.some.injEq] at h
    subst h
    have hne : st.index ≠ (validBaudRates.length : Int) := fun hcon => hterm (Or.inl hcon)
    exact Or.inl ⟨hc, rfl, by omega, rfl⟩

/-- One round from an `index` that is a position of the list: the round is defined, it
leaves `index` a position of the list, it increments `index` when the session goes on, and
when the session ends its last `setBaudRate` call is read at the final `index`. -/
theorem detectBaudrates_round_bounds (ABR : Int) (validBaudRates : List Int) (env : Env)
    (st : Statics) (s : State) (hc : s._configuring = true) (h0 : 0 ≤ st.index)
    (h1 : st.index < (validBaudRates.length : Int)) :
    ∃ out, detectBaudrates ABR validBaudRates env st s = some out ∧
      0 ≤ out.1.index ∧ out.1.index < (validBaudRates.length : Int) ∧
      (out.2.1._configuring = true → out.1.index = st.index + 1) ∧
      (out.2.1._configuring = false →
        lastSetBaudRate out.2.2 = readAt validBaudRates out.1.index) := by
  obtain ⟨out, hout⟩ := detectBaudrates_isSome ABR validBaudRates env st s h0 (by omega)
  obtain ⟨ev1, r, out', _, h2, h3, rfl⟩ :=
    detectBaudrates_eq_some ABR validBaudRates env st s hc out hout
  have hrs := recordScore_effect ABR validBaudRates env st r h2
  have hcw := commitWinner_outcome validBaudRates r.1 r.2 s out' hc (by omega) h3
  refine ⟨_, hout, ?_⟩
  rcases hcw with ⟨hconf, hidx, hlt, _⟩ | ⟨hconf, b, hb, hev⟩
  · refine ⟨by simp only; omega, by simp only; omega, fun _ => by simp only; omega, ?_⟩
    intro hfalse
    simp only [hconf] at hfalse
    cases hfalse
  · have hbd := readAt_bounds validBaudRates _ b hb
    refine ⟨hbd.1, hbd.2, ?_, ?_⟩
    · intro htrue
      simp only [hconf] at htrue
      cases htrue
    · intro _
      simp only [hev, hb]
      exact lastSetBaudRate_append _ _ _ (by simp [lastSetBaudRate])

/-- From round `r` on, whatever the counter readings: a session whose `index` is `r`, a
position of the list, ends within the rounds that remain up to the length of the list. -/
theorem runSession_terminates (ABR : Int) (validBaudRates : List Int) (readings : Nat → Env) :
    ∀ (fuel r : Nat) (st : Statics) (s : State),
      s._configuring = true → st.index = (r : Int) → r < validBaudRates.length →
      validBaudRates.length ≤ fuel + r →
      ∃ fin, runSession ABR validBaudRates readings fuel r st s = some fin ∧
        fin.2.1._configuring = false ∧ 0 ≤ fin.1.index ∧
        fin.1.index < (validBaudRates.length : Int) ∧
        lastSetBaudRate fin.2.2 = readAt validBaudRates fin.1.index
  | 0, r, st, s, _, _, hr, hfuel => by omega
  | fuel + 1, r, st, s, hc, hidx, hr, hfuel => by
    obtain ⟨out, hout, hb0, hb1, hgo, hstop⟩ :=
      detectBaudrates_round_bounds ABR validBaudRates (readings r) st s hc (by omega)
        (by omega)
    simp only [runSession, hc, if_true, hout, Option.some_bind]
    by_cases hconf : out.2.1._configuring = true
    · have hidx' : out.1.index = ((r + 1 : Nat) : Int) := by
        rw [hgo hconf, hidx]; push_cast; rfl
      obtain ⟨fin, hfin, hfc, hf0, hf1, hlast⟩ :=
        runSession_terminates ABR validBaudRates readings fuel (r + 1) out.1 out.2.1 hconf
          hidx' (by omega) (by omega)
      rw [hfin]
      refine ⟨_, rfl, hfc, hf0, hf1, ?_⟩
      obtain ⟨b, hb⟩ := readAt_isSome validBaudRates fin.1.index hf0 hf1
      rw [hb] at hlast ⊢
      exact lastSetBaudRate_append _ _ _ hlast
    · have hconf' : out.2.1._configuring = false := by simpa using hconf
      rw [runSession_inactive ABR validBaudRates readings fuel (r + 1) _ _ hconf']
      refine ⟨_, rfl, hconf', hb0, hb1, ?_⟩
      simp only [Option.map_some', List.append_nil]
      exact hstop hconf'

theorem detectBaudrates_inactive (ABR : Int) (validBaudRates : List Int) (env : Env)
    (st : Statics) (s : State) (hc : s._configuring = false) :
    detectBaudrates ABR validBaudRates env st s = some (st, s, []) := by
  simp [detectBaudrates, hc]

/-- After any number of rounds of a session that starts with `index = 0` on a list that is
not empty, the state is defined, `index` is a position of the list, and `index` is the
number of rounds run as long as the session goes on. -/
theorem runRounds_bounds (ABR : Int) (validBaudRates : List Int) (readings : Nat → Env)
    (hne : validBaudRates ≠ []) (st0 : Statics) (s0 : State) (hidx : st0.index = 0) :
    ∀ r : Nat, ∃ p, runRounds ABR validBaudRates readings r st0 s0 = some p ∧
      0 ≤ p.1.index ∧ p.1.index < (validBaudRates.length : Int) ∧
      (p.2._configuring = true → p.1.index = (r : Int))
  | 0 => by
    have hlen : 0 < validBaudRates.length := List.length_pos.mpr hne
    exact ⟨(st0, s0), rfl, by simp only; omega, by simp only; omega, fun _ => by simpa using hidx⟩
  | r + 1 => by
    obtain ⟨p, hp, h0, h1, hgo⟩ := runRounds_bounds ABR validBaudRates readings hne st0 s0 hidx r
    simp only [runRounds, hp, Option.some_bind]
    by_cases hc : p.2._configuring = true
    · obtain ⟨out, hout, hb0, hb1, hgo', _⟩ :=
        detectBaudrates_round_bounds ABR validBaudRates (readings r) p.1 p.2 hc h0 h1
      rw [hout]
      refine ⟨_, rfl, hb0, hb1, ?_⟩
      intro hconf
      have := hgo' hconf
      have := hgo hc
      simp only
      push_cast
      omega
    · have hc' : p.2._configuring = false := by simpa using hc
      rw [detectBaudrates_inactive ABR validBaudRates (readings r) p.1 p.2 hc']
      refine ⟨_, rfl, h0, h1, ?_⟩
      intro hconf
      simp only [Option.map_some'] at hconf
      exact absurd hconf hc

/-- C14: for every candidate list of length n that is not empty and whatever the counter
readings are, a session started from fresh state (1) ends with `configuring` false within
n rounds, every read of the list on the way being inside it (the result is defined), with a
committed `index` in [0, n) at which the committed rate is read; and (2) after any number r
of rounds the state is defined, `index` lies in [0, n), and `index = r` as long as the
session goes on, so that it cannot go on after n rounds. -/
theorem detectBaudrates_session_terminates (ABR : Int) (validBaudRates : List Int)
    (readings : Nat → Env) (fuel : Nat) (s : State) (hne : validBaudRates ≠ [])
    (hfuel : validBaudRates.length ≤ fuel) (hc : s._configuring = true) :
    (∃ fin, runSession ABR validBaudRates readings fuel 0 (Statics.fresh ABR) s = some fin ∧
      fin.2.1._configuring = false ∧ 0 ≤ fin.1.index ∧
      fin.1.index < (validBaudRates.length : Int) ∧
      lastSetBaudRate fin.2.2 = readAt validBaudRates fin.1.index) ∧
    (∀ r : Nat, ∃ p, runRounds ABR validBaudRates readings r (Statics.fresh ABR) s = some p ∧
      0 ≤ p.1.index ∧ p.1.index < (validBaudRates.length : Int) ∧
      (p.2._configuring = true → p.1.index = (r : Int) ∧ r < validBaudRates.length)) := by
  have hlen : 0 < validBaudRates.length := List.length_pos.mpr hne
  refine ⟨runSession_terminates ABR validBaudRates readings fuel 0 (Statics.fresh ABR) s hc rfl
    hlen (by omega), ?_⟩
  intro r
  obtain ⟨p, hp, h0, h1, hgo⟩ :=
    runRounds_bounds ABR validBaudRates readings hne (Statics.fresh ABR) s rfl r
  refine ⟨p, hp, h0, h1, fun hconf => ⟨hgo hconf, ?_⟩⟩
  have := hgo hconf
  omega

/-- Witness of `detectBaudrates_session_terminates`: five candidates, none of which ever
answers, end with the last candidate after five rounds. -/
theorem detectBaudrates_session_terminates_witness :
    ([9600, 19200, 38400, 57600, 115200] : List Int) ≠ [] ∧
      State.configuringStart._configuring = true ∧
      ∃ fin, runSession 20 [9600, 19200, 38400, 57600, 115200]
          (readingsOfScores 20 [20, 20, 20, 20, 20]) 5 0 (Statics.fresh 20)
          State.configuringStart = some fin ∧
        fin.2.1._configuring = false ∧ 0 ≤ fin.1.index ∧ fin.1.index < 5 :=
  have h := (detectBaudrates_session_terminates 20 [9600, 19200, 38400, 57600, 115200]
    (readingsOfScores 20 [20, 20, 20, 20, 20]) 5 State.configuringStart (by decide)
    (by decide) rfl).1
  ⟨by decide, rfl, h.elim fun fin hfin => ⟨fin, hfin.1, hfin.2.1, hfin.2.2.1, hfin.2.2.2.1⟩⟩

/-! ## The early stop -/

/-- A termination check after which the session goes on changed nothing. -/
theorem commitWinner_goes_on (validBaudRates : List Int) (lastCounter : Int) (st : Statics)
    (s : State) (out : Statics × State × List Event)
    (h : commitWinner validBaudRates lastCounter st s = some out)
    (hconf : out.2.1._configuring = true) :
    lastCounter ≠ 0 ∧ st.index ≠ (validBaudRates.length : Int) ∧ out = (st, s, []) := by
  unfold commitWinner at h
  split_ifs at h with hterm hend
  · simp only [Option.bind_eq_some, Option.map_eq_some'] at h
    obtain ⟨i, _, b, _, rfl⟩ := h
    cases hconf
  · simp only [Option.bind_eq_some, Option.map_eq_some'] at h
    obtain ⟨i, _, b, _, rfl⟩ := h
    cases hconf
  · simp only [Option.some.injEq] at h
    exact ⟨fun hcon => hterm (Or.inr hcon), fun hcon => hterm (Or.inl hcon), h.symm⟩

/-- A termination check that ends the session found the list exhausted or the score 0. -/
theorem commitWinner_stops (validBaudRates : List Int) (lastCounter : Int) (st : Statics)
    (s : State) (out : Statics × State × List Event) (hc : s._configuring = true)
    (h : commitWinner validBaudRates lastCounter st s = some out)
    (hconf : out.2.1._configuring = false) :
    st.index = (validBaudRates.length : Int) ∨ lastCounter = 0 := by
  by_contra hcon
  have hterm : ¬(st.index = (validBaudRates.length : Int) ∨ lastCounter = 0) := hcon
  simp only [commitWinner, hterm, if_false, Option.some.injEq] at h
  subst h
  simp only [hc] at hconf
  cases hconf

/-- The state of a session that still goes on after `r` rounds: `index = r`, below the
length of the list; the baselines are the readings of the last round; the scores of the
candidates before `r - 1` are recorded in the map, and none of them is 0. -/
theorem runRounds_invariant (ABR : Int) (validBaudRates : List Int) (readings : Nat → Env)
    (hnd : validBaudRates.Nodup) (hne : validBaudRates ≠ []) (st0 : Statics) (s0 : State)
    (hidx0 : st0.index = 0) :
    ∀ (r : Nat) (st : Statics) (s : State),
      runRounds ABR validBaudRates readings r st0 s0 = some (st, s) →
      s._configuring = true →
      st.index = (r : Int) ∧ r < validBaudRates.length ∧
      (∀ k, r = k + 1 → st.lastParserErrorCount = (readings k).parserErrors ∧
        st.lastParserMsgsCount = (readings k).parsedMsgs) ∧
      (∀ j c, j + 1 < r → validBaudRates[j]? = some c →
        st.baudRateToError.value c = scoreOf ABR readings j) ∧
      (∀ j, j + 1 < r → scoreOf ABR readings j ≠ 0)
  | 0, st, s, hrun, _ => by
    simp only [runRounds, Option.some.injEq, Prod.mk.injEq] at hrun
    obtain ⟨rfl, rfl⟩ := hrun
    have hlen : 0 < validBaudRates.length := List.length_pos.mpr hne
    exact ⟨by simpa using hidx0, hlen, fun k hk => by omega, fun j c hj => by omega,
      fun j hj => by omega⟩
  | r + 1, st, s, hrun, hc => by
    simp only [runRounds, Option.bind_eq_some, Option.map_eq_some'] at hrun
    obtain ⟨p, hp, out, hout, hpair⟩ := hrun
    simp only [Prod.mk.injEq] at hpair
    obtain ⟨rfl, rfl⟩ := hpair
    have hpc : p.2._configuring = true := by
      by_contra hcon
      have hcon' : p.2._configuring = false := by simpa using hcon
      rw [detectBaudrates_inactive ABR validBaudRates (readings r) p.1 p.2 hcon',
        Option.some.injEq] at hout
      subst hout
      exact hcon hc
    obtain ⟨hidx, hlt, hbase, hmap, hnz⟩ :=
      runRounds_invariant ABR validBaudRates readings hnd hne st0 s0 hidx0 r p.1 p.2 hp hpc
    cases r with
    | zero =>
      have h0 : validBaudRates[0]? = some validBaudRates[0] := List.getElem?_eq_getElem hlt
      rw [detectBaudrates_first_round ABR validBaudRates (readings 0) p.1 p.2
        validBaudRates[0] hpc (by simpa using hidx) h0, Option.map_eq_some'] at hout
      obtain ⟨out', hcw, rfl⟩ := hout
      obtain ⟨_, hne', rfl⟩ := commitWinner_goes_on validBaudRates _ _ _ out' hcw hc
      simp only at hne'
      refine ⟨rfl, by omega, ?_, fun j c hj => by omega, fun j hj => by omega⟩
      intro k hk
      have : k = 0 := by omega
      subst this
      exact ⟨rfl, rfl⟩
    | succ k =>
      have hbk : validBaudRates[k]? = some validBaudRates[k] :=
        List.getElem?_eq_getElem (by omega)
      have hck : validBaudRates[k + 1]? = some validBaudRates[k + 1] :=
        List.getElem?_eq_getElem hlt
      obtain ⟨hpe, hpm⟩ := hbase k rfl
      have hscore : (readings (k + 1)).parserErrors - p.1.lastParserErrorCount + ABR -
          ((readings (k + 1)).parsedMsgs - p.1.lastParserMsgsCount)
            = scoreOf ABR readings k := by
        rw [hpe, hpm]; rfl
      rw [detectBaudrates_later_round ABR validBaudRates (readings (k + 1)) p.1 p.2 k
        validBaudRates[k] validBaudRates[k + 1] hpc hidx hbk hck, hscore,
        Option.map_eq_some'] at hout
      obtain ⟨out', hcw, rfl⟩ := hout
      obtain ⟨hlc, hne', rfl⟩ := commitWinner_goes_on validBaudRates _ _ _ out' hcw hc
      simp only at hne'
      refine ⟨rfl, by omega, ?_, ?_, ?_⟩
      · intro k' hk'
        have : k' = k + 1 := by omega
        subst this
        exact ⟨rfl, rfl⟩
      · intro j c hj hjc
        simp only
        by_cases hjk : j = k
        · subst hjk
          rw [hbk] at hjc
          cases hjc
          exact QMap.value_assign_same _ _ _
        · have hnec : c ≠ validBaudRates[k] := by
            intro hcon
            apply hjk
            exact List.getElem?_inj (by omega) hnd (by rw [hjc, hbk, hcon])
          rw [QMap.value_assign_other _ _ _ _ hnec]
          exact hmap j c (by omega) hjc
      · intro j hj
        by_cases hjk : j = k
        · subst hjk; exact hlc
        · exact hnz j (by omega)

theorem detectBaudrates_nil_first (ABR : Int) (env : Env) (st : Statics) (s : State)
    (hc : s._configuring = true) (hidx : st.index = 0) :
    detectBaudrates ABR [] env st s =
      some ({ st with lastParserErrorCount := env.parserErrors,
                      lastParserMsgsCount := env.parsedMsgs, index := 1 }, s, []) := by
  simp [detectBaudrates, setCandidate, recordScore, commitWinner, hc, hidx]

theorem detectBaudrates_nil_later (ABR : Int) (env : Env) (st : Statics) (s : State)
    (hc : s._configuring = true) (hidx : st.index ≠ 0) :
    detectBaudrates ABR [] env st s = none := by
  have hread : readAt [] (st.index - 1) = none := readAt_eq_none [] _ (by simp; omega)
  by_cases hneg : st.index < 0
  · have hread0 : readAt [] st.index = none := readAt_eq_none [] _ (by simp; omega)
    simp [detectBaudrates, setCandidate, hc, hneg, hread0]
  · simp [detectBaudrates, setCandidate, recordScore, hc, hidx, hneg, hread]

/-- On the empty list a session goes on for one round and is undefined from the second. -/
theorem runRounds_nil (ABR : Int) (readings : Nat → Env) (st0 : Statics) (s0 : State)
    (hidx0 : st0.index = 0) :
    ∀ (r : Nat) (st : Statics) (s : State),
      runRounds ABR [] readings r st0 s0 = some (st, s) → s._configuring = true →
      st.index = (r : Int) ∧ r ≤ 1
  | 0, st, s, hrun, _ => by
    simp only [runRounds, Option.some.injEq, Prod.mk.injEq] at hrun
    obtain ⟨rfl, rfl⟩ := hrun
    exact ⟨by simpa using hidx0, by omega⟩
  | r + 1, st, s, hrun, hc => by
    simp only [runRounds, Option.bind_eq_some, Option.map_eq_some'] at hrun
    obtain ⟨p, hp, out, hout, hpair⟩ := hrun
    simp only [Prod.mk.injEq] at hpair
    obtain ⟨rfl, rfl⟩ := hpair
    have hpc : p.2._configuring = true := by
      by_contra hcon
      have hcon' : p.2._configuring = false := by simpa using hcon
      rw [detectBaudrates_inactive ABR [] (readings r) p.1 p.2 hcon',
        Option.some.injEq] at hout
      subst hout
      exact hcon hc
    obtain ⟨hidx, _⟩ := runRounds_nil ABR readings st0 s0 hidx0 r p.1 p.2 hp hpc
    cases r with
    | zero =>
      rw [detectBaudrates_nil_first ABR (readings 0) p.1 p.2 hpc (by simpa using hidx),
        Option.some.injEq] at hout
      subst hout
      exact ⟨rfl, by omega⟩
    | succ k =>
      rw [detectBaudrates_nil_later ABR (readings (k + 1)) p.1 p.2 hpc
        (by rw [hidx]; push_cast; omega)] at hout
      cases hout

/-- C13: in a session started from fresh state with distinct candidates, let round `k` be
run on the state reached after `k` rounds, the list not being exhausted by it (`k + 1` is
not the length of the list).  Whenever that round ends the session, `k` is some `j + 1`, the
score just recorded, that of candidate `j`, is 0, no candidate before `j` has the value 0
in the map, the upward scan ends at `j`, `index` is left at `j` and the rate committed is
candidate `j`: the candidate whose score was just recorded.  And when the list is not empty
the round is defined (the scan ends inside the list), and it ends the session exactly when
the score it records is 0. -/
theorem detectBaudrates_early_stop_commits_last_scored (ABR : Int) (validBaudRates : List Int)
    (readings : Nat → Env) (k : Nat) (s0 s : State) (st : Statics)
    (hnd : validBaudRates.Nodup)
    (hreach : runRounds ABR validBaudRates readings k (Statics.fresh ABR) s0 = some (st, s))
    (hc : s._configuring = true) (hearly : k + 1 ≠ validBaudRates.length) :
    (∀ out, detectBaudrates ABR validBaudRates (readings k) st s = some out →
      out.2.1._configuring = false →
      ∃ j : Nat, k = j + 1 ∧ scoreOf ABR readings j = 0 ∧
        (∀ i c, i < j → validBaudRates[i]? = some c → out.1.baudRateToError.value c ≠ 0) ∧
        scanWinner out.1.baudRateToError validBaudRates 0 = some (j : Int) ∧
        out.1.index = (j : Int) ∧
        lastSetBaudRate out.2.2 = validBaudRates[j]?) ∧
    (validBaudRates ≠ [] →
      ∃ out, detectBaudrates ABR validBaudRates (readings k) st s = some out ∧
        (out.2.1._configuring = false ↔ ∃ j : Nat, k = j + 1 ∧ scoreOf ABR readings j = 0)) := by
  have hpart : ∀ out, detectBaudrates ABR validBaudRates (readings k) st s = some out →
      out.2.1._configuring = false →
      ∃ j : Nat, k = j + 1 ∧ scoreOf ABR readings j = 0 ∧
        (∀ i c, i < j → validBaudRates[i]? = some c → out.1.baudRateToError.value c ≠ 0) ∧
        scanWinner out.1.baudRateToError validBaudRates 0 = some (j : Int) ∧
        out.1.index = (j : Int) ∧
        lastSetBaudRate out.2.2 = validBaudRates[j]? := by
    intro out hround hstop
    by_cases hne : validBaudRates = []
    · subst hne
      obtain ⟨hidx, hk⟩ := runRounds_nil ABR readings (Statics.fresh ABR) s0 rfl k st s hreach hc
      exfalso
      by_cases hk0 : k = 0
      · subst hk0
        rw [detectBaudrates_nil_first ABR (readings 0) st s hc (by simpa using hidx),
          Option.some.injEq] at hround
        subst hround
        simp only [hc] at hstop
        cases hstop
      · rw [detectBaudrates_nil_later ABR (readings k) st s hc (by rw [hidx]; omega)] at hround
        cases hround
    obtain ⟨hidx, hlt, hbase, hmap, hnz⟩ :=
      runRounds_invariant ABR validBaudRates readings hnd hne (Statics.fresh ABR) s0 rfl k st s
        hreach hc
    cases k with
    | zero =>
      exfalso
      have h0 : validBaudRates[0]? = some validBaudRates[0] := List.getElem?_eq_getElem hlt
      rw [detectBaudrates_first_round ABR validBaudRates (readings 0) st s validBaudRates[0] hc
        (by simpa using hidx) h0, Option.map_eq_some'] at hround
      obtain ⟨out', hcw, rfl⟩ := hround
      rcases commitWinner_stops validBaudRates _ _ s out' hc hcw hstop with hend | hzero
      · simp only at hend
        omega
      · omega
    | succ j =>
      have hbj : validBaudRates[j]? = some validBaudRates[j] :=
        List.getElem?_eq_getElem (by omega)
      have hcj : validBaudRates[j + 1]? = some validBaudRates[j + 1] :=
        List.getElem?_eq_getElem hlt
      obtain ⟨hpe, hpm⟩ := hbase j rfl
      have hscore : (readings (j + 1)).parserErrors - st.lastParserErrorCount + ABR -
          ((readings (j + 1)).parsedMsgs - st.lastParserMsgsCount) = scoreOf ABR readings j := by
        rw [hpe, hpm]; rfl
      rw [detectBaudrates_later_round ABR validBaudRates (readings (j + 1)) st s j
        validBaudRates[j] validBaudRates[j + 1] hc hidx hbj hcj, hscore,
        Option.map_eq_some'] at hround
      obtain ⟨out', hcw, rfl⟩ := hround
      have hne2 : (((j + 2 : Nat) : Int)) ≠ (validBaudRates.length : Int) := by omega
      have hzero : scoreOf ABR readings j = 0 := by
        rcases commitWinner_stops validBaudRates _ _ s out' hc hcw hstop with hend | hzero
        · exact absurd hend (by simpa using hne2)
        · exact hzero
      have hbefore : ∀ i c, i < j → validBaudRates[i]? = some c →
          (st.baudRateToError.assign validBaudRates[j] (scoreOf ABR readings j)).value c ≠ 0 := by
        intro i c hi hic
        have hnec : c ≠ validBaudRates[j] := by
          intro hcon
          have : i = j := List.getElem?_inj (by omega) hnd (by rw [hic, hbj, hcon])
          omega
        rw [QMap.value_assign_other _ _ _ _ hnec, hmap i c (by omega) hic]
        exact hnz i (by omega)
      have hscan := scanWinner_first_zero
        (st.baudRateToError.assign validBaudRates[j] (scoreOf ABR readings j))
        validBaudRates 0 j validBaudRates[j] hbj
        (by rw [QMap.value_assign_same]; exact hzero) hbefore
      have hread : readAt validBaudRates (0 + (j : Int)) = some validBaudRates[j] := by
        rw [zero_add, readAt_natCast, hbj]
      rw [commitWinner_early validBaudRates _ _ s (0 + (j : Int)) validBaudRates[j]
        (by simpa using hne2) hzero hscan hread, Option.some.injEq] at hcw
      subst hcw
      refine ⟨j, rfl, hzero, hbefore, ?_, by simp, ?_⟩
      · simpa using hscan
      · rw [hbj]
        simp [lastSetBaudRate]
  refine ⟨hpart, ?_⟩
  intro hne
  obtain ⟨hidx, hlt, hbase, _, _⟩ :=
    runRounds_invariant ABR validBaudRates readings hnd hne (Statics.fresh ABR) s0 rfl k st s
      hreach hc
  obtain ⟨out, hout⟩ :=
    detectBaudrates_isSome ABR validBaudRates (readings k) st s (by omega) (by omega)
  refine ⟨out, hout, ?_, ?_⟩
  · intro hstop
    obtain ⟨j, hk, hzero, _⟩ := hpart out hout hstop
    exact ⟨j, hk, hzero⟩
  · rintro ⟨j, hk, hzero⟩
    subst hk
    by_contra hgo
    have hgo' : out.2.1._configuring = true := by simpa using hgo
    have hbj : validBaudRates[j]? = some validBaudRates[j] :=
      List.getElem?_eq_getElem (by omega)
    have hcj : validBaudRates[j + 1]? = some validBaudRates[j + 1] :=
      List.getElem?_eq_getElem hlt
    obtain ⟨hpe, hpm⟩ := hbase j rfl
    have hscore : (readings (j + 1)).parserErrors - st.lastParserErrorCount + ABR -
        ((readings (j + 1)).parsedMsgs - st.lastParserMsgsCount) = scoreOf ABR readings j := by
      rw [hpe, hpm]; rfl
    rw [detectBaudrates_later_round ABR validBaudRates (readings (j + 1)) st s j
      validBaudRates[j] validBaudRates[j + 1] hc hidx hbj hcj, hscore,
      Option.map_eq_some'] at hout
    obtain ⟨out', hcw, rfl⟩ := hout
    exact (commitWinner_goes_on validBaudRates _ _ _ out' hcw hgo').1 hzero

/-- Witness of `detectBaudrates_early_stop_commits_last_scored`: with the candidates 9600,
19200, 38400, 57600, 115200 and the scores 3, 0, 0, 2, 1, round 2 records the score 0 of
19200 and ends the session; the scan ends at position 1 and 19200 is committed. -/
theorem detectBaudrates_early_stop_commits_last_scored_witness :
    fiveRates.Nodup ∧
      runRounds 20 fiveRates (readingsOfScores 20 [3, 0, 0, 2, 1]) 2
          (Statics.fresh 20) State.configuringStart =
        some ({ count := 20, index := 2, baudRateToError := [(9600, 3)],
                lastParserErrorCount := 0, lastParserMsgsCount := 17 },
              State.configuringStart) ∧
      State.configuringStart._configuring = true ∧
      2 + 1 ≠ fiveRates.length ∧
      ∃ out, detectBaudrates 20 fiveRates (readingsOfScores 20 [3, 0, 0, 2, 1] 2)
          { count := 20, index := 2, baudRateToError := [(9600, 3)],
            lastParserErrorCount := 0, lastParserMsgsCount := 17 }
          State.configuringStart = some out ∧
        out.2.1._configuring = false ∧ out.1.index = 1 ∧
        lastSetBaudRate out.2.2 = some 19200 := by
  have h := detectBaudrates_early_stop_commits_last_scored 20 fiveRates
    (readingsOfScores 20 [3, 0, 0, 2, 1]) 2 State.configuringStart State.configuringStart
    { count := 20, index := 2, baudRateToError := [(9600, 3)],
      lastParserErrorCount := 0, lastParserMsgsCount := 17 }
    (by decide) rfl rfl (by decide)
  obtain ⟨out, hout, hiff⟩ := h.2 (by decide)
  have hstop : out.2.1._configuring = false := hiff.mpr ⟨1, rfl, by decide⟩
  obtain ⟨j, hk, _, _, _, hidx, hlast⟩ := h.1 out hout hstop
  have hj : j = 1 := by omega
  subst hj
  exact ⟨by decide, rfl, rfl, by decide, out, hout, hstop, hidx, hlast⟩

/-! ## Repeated sessions -/

/-- The rule determines the committed rate. -/
theorem CommitRule_unique (ABR : Int) (validBaudRates : List Int) (readings : Nat → Env)
    (c c' : Int) (h : CommitRule ABR validBaudRates readings c)
    (h' : CommitRule ABR validBaudRates readings c') : c = c' := by
  by_cases hex : ∃ j, j + 2 < validBaudRates.length ∧ scoreOf ABR readings j = 0
  · classical
    have hspec := Nat.find_spec hex
    have hmin : ∀ i, i < Nat.find hex → scoreOf ABR readings i ≠ 0 := by
      intro i hi hzero
      exact Nat.find_min hex hi ⟨by omega, hzero⟩
    have hb : validBaudRates[Nat.find hex]? = some validBaudRates[Nat.find hex] :=
      List.getElem?_eq_getElem (by omega)
    rw [h.1 _ _ hspec.1 hb hspec.2 hmin, h'.1 _ _ hspec.1 hb hspec.2 hmin]
  · have hall : ∀ j, j + 2 < validBaudRates.length → scoreOf ABR readings j ≠ 0 :=
      fun j hj hzero => hex ⟨j, hj, hzero⟩
    have h1 := h.2 hall
    have h2 := h'.2 hall
    rw [h1] at h2
    exact Option.some.inj h2

/-- C11 (as amended): the detection state is kept in statics that no session resets.  After
a session from fresh state over distinct candidates has committed a rate, `index` is left at
the position of the committed candidate, and a subsequent session starts from the statics
as they were left.  A session that starts with `index = 0`, whatever
error map and baselines it inherits, commits the rate that a session from fresh state commits
on the same readings; this covers the subsequent session exactly when the previous one
committed the candidate at position 0. -/
theorem detectBaudrates_subsequent_session (ABR : Int) (validBaudRates : List Int)
    (readings readings2 : Nat → Env) (fuel : Nat) (s s2 : State)
    (hnd : validBaudRates.Nodup) (hne : validBaudRates ≠ [])
    (hfuel : validBaudRates.length ≤ fuel) (hc : s._configuring = true)
    (hc2 : s2._configuring = true) :
    (∃ fin c, runSession ABR validBaudRates readings fuel 0 (Statics.fresh ABR) s = some fin ∧
      fin.2.1._configuring = false ∧ lastSetBaudRate fin.2.2 = some c ∧
      readAt validBaudRates fin.1.index = some c) ∧
    (∀ st : Statics, st.index = 0 →
      ∃ c, committedRate ABR validBaudRates readings2 fuel st s2 = some c ∧
        committedRate ABR validBaudRates readings2 fuel (Statics.fresh ABR) s2 = some c) := by
  have hlen : 0 < validBaudRates.length := List.length_pos.mpr hne
  constructor
  · obtain ⟨fin, hfin, hconf, h0, h1, hlast⟩ :=
      runSession_terminates ABR validBaudRates readings fuel 0 (Statics.fresh ABR) s hc rfl
        hlen (by omega)
    obtain ⟨c, hcread⟩ := readAt_isSome validBaudRates fin.1.index h0 h1
    exact ⟨fin, c, hfin, hconf, by rw [hlast, hcread], hcread⟩
  · intro st hidx
    obtain ⟨fin, c, hfin, hconf, hlast, hrule⟩ :=
      runSession_from_start ABR validBaudRates readings2 hnd hne fuel hfuel st s2 hc2 hidx
    obtain ⟨fin', c', hfin', hconf', hlast', hrule'⟩ :=
      runSession_from_start ABR validBaudRates readings2 hnd hne fuel hfuel (Statics.fresh ABR)
        s2 hc2 rfl
    have hcc : c' = c := CommitRule_unique ABR validBaudRates readings2 c' c hrule' hrule
    subst hcc
    exact ⟨c', by simp [committedRate, hfin, hconf, hlast],
      by simp [committedRate, hfin', hconf', hlast']⟩

/-- Witness of `detectBaudrates_subsequent_session`: after the scores 0, 5, 5, 5, 5 the first
session commits 9600 and leaves `index` at 0. -/
theorem detectBaudrates_subsequent_session_witness :
    fiveRates.Nodup ∧ fiveRates ≠ [] ∧ fiveRates.length ≤ 5 ∧
      State.configuringStart._configuring = true ∧
      ∃ fin c, runSession 20 fiveRates (readingsOfScores 20 [0, 5, 5, 5, 5]) 5 0
          (Statics.fresh 20) State.configuringStart = some fin ∧
        fin.2.1._configuring = false ∧ lastSetBaudRate fin.2.2 = some c ∧
        readAt fiveRates fin.1.index = some c :=
  ⟨by decide, by decide, by decide, rfl,
    (detectBaudrates_subsequent_session 20 fiveRates (readingsOfScores 20 [0, 5, 5, 5, 5])
      (readingsOfScores 20 [0, 5, 5, 5, 5]) 5 State.configuringStart State.configuringStart
      (by decide) (by decide) (by decide) rfl rfl).1⟩

/-- C11 (counterexample): the session over 9600, 19200, 38400, 57600, 115200 with the
scores 3, 0, 0, 2, 1 commits 19200 and leaves `index = 1`, a map that is not empty and the
baseline 37; a subsequent session that starts from these statics with `configuring` true
again, on the same readings, commits 38400, where a session from fresh state commits
19200. -/
theorem detectBaudrates_second_session_differs :
    (runSession 20 fiveRates (readingsOfScores 20 [3, 0, 0, 2, 1]) 5 0 (Statics.fresh 20)
        State.configuringStart).map (fun fin => (fin.1, fin.2.1._configuring)) =
      some (retainedStatics, false) ∧
    retainedStatics.index ≠ 0 ∧ retainedStatics.baudRateToError ≠ [] ∧
    committedRate 20 fiveRates (readingsOfScores 20 [3, 0, 0, 2, 1]) 5 (Statics.fresh 20)
        State.configuringStart = some 19200 ∧
    committedRate 20 fiveRates (readingsOfScores 20 [3, 0, 0, 2, 1]) 5 retainedStatics
        State.configuringStart = some 38400 := by
  decide

/-! ## Probes per round -/

/-- C12 (evaluation): with `_ABRTotalNumberOfMessages = 20` and a device that never answers,
42 calls of `checkBaudrateProcess` from fresh statics send one probe each; the first round
(the switch to 9600) comes in call 21, after 21 probes, and the second round (the switch to
19200) in call 42, after 21 more probes, while the score subtracts the replies from 20.
With `_ABRTotalNumberOfMessages = 3` the first round comes after 4 probes and the second
after 21 more, the counter being reset to the literal 20. -/
theorem checkBaudrateProcess_probes_between_rounds :
    (runChecks 20 fiveRates silentReadings 42 (Statics.fresh 20) State.configuringStart).map
        (fun p => (p.1.index, p.2.2)) =
      some (2, timerCalls 20 ++
                [Event.writeDeviceInformationRequest, Event.setBaudRate 9600] ++
                timerCalls 20 ++
                [Event.writeDeviceInformationRequest, Event.setBaudRate 19200]) ∧
    (timerCalls 20 ++ [Event.writeDeviceInformationRequest]).count
        Event.writeDeviceInformationRequest = 21 ∧
    (runChecks 3 fiveRates silentReadings 25 (Statics.fresh 3) State.configuringStart).map
        (fun p => (p.1.index, p.2.2)) =
      some (2, timerCalls 3 ++
                [Event.writeDeviceInformationRequest, Event.setBaudRate 9600] ++
                timerCalls 20 ++
                [Event.writeDeviceInformationRequest, Event.setBaudRate 19200]) ∧
    (timerCalls 3 ++ [Event.writeDeviceInformationRequest]).count
        Event.writeDeviceInformationRequest = 4 := by
  refine ⟨by rfl, by decide, by rfl, by decide⟩

/-- C9: the number of next-profile requests issued while handling a message is exactly one
for a profile-data message, for a NACK of the transducer-control id and for a
DEVICE_INFORMATION received while `configuring` is false; it is exactly zero for a
DEVICE_INFORMATION received while `configuring` is true, for a NACK of any other id and for
an unhandled id; these last two leave the statics and the device state as they were, the
frequency tracker apart.  A DEVICE_INFORMATION received while `configuring` is true instead
advances the baud-check process: it re-arms the baud-config timer and writes one probe;
while `count` is not 0 it decrements `count` and re-arms the timer again, changing nothing
else; when `count` is 0 it runs `detectBaudrates` on the statics with `count` decremented
and then sets `count` to 20, and, `index` being a position of the list, that round is
defined, leaves `index` a position of the list, increments `index` if the session goes on
and otherwise commits the rate read at the final `index`. -/
theorem handleMessage_request_count (ABR : Int) (validBaudRates : List Int) (env : Env)
    (st : Statics) (s : State) (msg : ping_message) :
    (msg.message_id = MessageId.DEVICE_DATA →
      ∃ out, handleMessage ABR validBaudRates env st s msg = some out ∧
        countRequests out.2.2 = 1) ∧
    (msg.message_id = MessageId.NACK → msg.nacked_id = MessageId.TRANSDUCER →
      ∃ out, handleMessage ABR validBaudRates env st s msg = some out ∧
        countRequests out.2.2 = 1) ∧
    (msg.message_id = MessageId.DEVICE_INFORMATION → s._configuring = false →
      ∃ out, handleMessage ABR validBaudRates env st s msg = some out ∧
        countRequests out.2.2 = 1) ∧
    (msg.message_id = MessageId.DEVICE_INFORMATION → s._configuring = true →
      (∀ out, handleMessage ABR validBaudRates env st s msg = some out →
        countRequests out.2.2 = 0 ∧
          out.2.2.count Event.writeDeviceInformationRequest = 1) ∧
      (st.count ≠ 0 ∨ (0 ≤ st.index ∧ st.index ≤ (validBaudRates.length : Int)) →
        ∃ out, handleMessage ABR validBaudRates env st s msg = some out) ∧
      (st.count ≠ 0 →
        handleMessage ABR validBaudRates env st s msg =
          some ({ st with count := st.count - 1 }, tracked env s msg,
            [Event.messageFrequencyChanged, Event.baudrateConfigurationTimerStart,
              Event.writeDeviceInformationRequest, Event.baudrateConfigurationTimerStart])) ∧
      (st.count = 0 →
        handleMessage ABR validBaudRates env st s msg =
          (detectBaudrates ABR validBaudRates env { st with count := st.count - 1 }
              (tracked env s msg)).map
            (fun out => ({ out.1 with count := 20 }, out.2.1,
              [Event.messageFrequencyChanged, Event.baudrateConfigurationTimerStart,
                Event.writeDeviceInformationRequest] ++ out.2.2))) ∧
      (st.count = 0 → 0 ≤ st.index → st.index < (validBaudRates.length : Int) →
        ∃ out, handleMessage ABR validBaudRates env st s msg = some out ∧
          out.1.count = 20 ∧ 0 ≤ out.1.index ∧ out.1.index < (validBaudRates.length : Int) ∧
          (out.2.1._configuring = true → out.1.index = st.index + 1) ∧
          (out.2.1._configuring = false →
            lastSetBaudRate out.2.2 = readAt validBaudRates out.1.index))) ∧
    (msg.message_id = MessageId.NACK → msg.nacked_id ≠ MessageId.TRANSDUCER →
      ∃ out, handleMessage ABR validBaudRates env st s msg = some out ∧
        countRequests out.2.2 = 0 ∧ out.1 = st ∧
        out.2.1 = { s with messageFrequencies :=
                      (msg.message_id, env.elapsed) :: s.messageFrequencies }) ∧
    (msg.message_id ≠ MessageId.DEVICE_INFORMATION → msg.message_id ≠ MessageId.DEVICE_DATA →
      msg.message_id ≠ MessageId.NACK →
      ∃ out, handleMessage ABR validBaudRates env st s msg = some out ∧
        countRequests out.2.2 = 0 ∧ out.1 = st ∧
        out.2.1 = { s with messageFrequencies :=
                      (msg.message_id, env.elapsed) :: s.messageFrequencies }) := by
  refine ⟨?_, ?_, ?_, ?_, ?_, ?_⟩
  · intro hid
    simp only [handleMessage, hid, ping_message.data_length, normalizeInto_length]
    by_cases hd : msg.data.length = 0
    · refine ⟨_, rfl, ?_⟩
      simp [hd, countRequests_append]
      rfl
    · by_cases hcond : dataChangedCondition
          { s with messageFrequencies :=
                      (MessageId.DEVICE_DATA, env.elapsed) :: s.messageFrequencies,
                   _angle := (msg.angle : Int),
                   _data := normalizeInto msg.data (resize s._data msg.data.length),
                   _ping_number := s._ping_number + 1 } = true
      · refine ⟨_, rfl, ?_⟩
        simp [hd, hcond, countRequests_append]
        rfl
      · refine ⟨_, rfl, ?_⟩
        simp [hd, hcond, countRequests_append]
        rfl
  · intro hid hn
    refine ⟨_, handleMessage_nack_transducer_eq ABR validBaudRates env st s msg hid hn, ?_⟩
    simp only [countRequests_append, countRequests_requestNextProfile]
    rfl
  · intro hid hc
    refine ⟨_, handleMessage_information_acquiring ABR validBaudRates env st s msg hid hc, ?_⟩
    simp only [countRequests_append, countRequests_requestNextProfile]
    rfl
  · intro hid hc
    rw [handleMessage_information_configuring ABR validBaudRates env st s msg hid hc]
    refine ⟨?_, ?_, ?_, ?_, ?_⟩
    · intro out hout
      rw [Option.map_eq_some'] at hout
      obtain ⟨out', hcb, rfl⟩ := hout
      have heff := checkBaudrateProcess_effect ABR validBaudRates env st _ out' hcb
      simp only [countRequests_append, List.count_append, heff.2.1, heff.2.2]
      exact ⟨rfl, rfl⟩
    · intro hdef
      obtain ⟨out', hout'⟩ :=
        checkBaudrateProcess_isSome ABR validBaudRates env st (tracked env s msg) hdef
      exact ⟨_, by rw [hout']; rfl⟩
    · intro hcount
      simp [checkBaudrateProcess, hcount]
    · intro hcount
      simp [checkBaudrateProcess, hcount, Option.map_map, Function.comp_def]
    · intro hcount h0 h1
      have hct : (tracked env s msg)._configuring = true := hc
      obtain ⟨out, hout, hb0, hb1, hgo, hstop⟩ :=
        detectBaudrates_round_bounds ABR validBaudRates env { st with count := st.count - 1 }
          (tracked env s msg) hct h0 h1
      refine ⟨({ out.1 with count := 20 }, out.2.1,
        [Event.messageFrequencyChanged, Event.baudrateConfigurationTimerStart,
          Event.writeDeviceInformationRequest] ++ out.2.2), ?_, rfl, hb0, hb1, hgo, ?_⟩
      · have hc0 : ¬ (st.count ≠ 0) := by simp [hcount]
        simp only [checkBaudrateProcess, if_neg hc0, hout, Option.map_some']
        rfl
      · intro hconf
        have hlast := hstop hconf
        obtain ⟨b, hb⟩ := readAt_isSome validBaudRates out.1.index hb0 hb1
        rw [hb] at hlast ⊢
        exact lastSetBaudRate_append _ _ _ hlast
  · intro hid hn
    exact ⟨_, handleMessage_nack_other ABR validBaudRates env st s msg hid hn, rfl, rfl, rfl⟩
  · intro h1 h2 h3
    exact ⟨_, handleMessage_unhandled ABR validBaudRates env st s msg h1 h2 h3, rfl, rfl, rfl⟩

/-- Witness of `handleMessage_request_count`: a device-information answer received during
acquisition triggers one request. -/
theorem handleMessage_request_count_witness :
    deviceInformation.message_id = MessageId.DEVICE_INFORMATION ∧
      State.acquiring._configuring = false ∧
      ∃ out, handleMessage 20 [9600, 115200] ⟨0, 0, 0⟩ (Statics.fresh 20) State.acquiring
          deviceInformation = some out ∧ countRequests out.2.2 = 1 :=
  ⟨rfl, rfl, (handleMessage_request_count 20 [9600, 115200] ⟨0, 0, 0⟩ (Statics.fresh 20)
    State.acquiring deviceInformation).2.2.1 rfl rfl⟩

end Ping360
